import Mathlib

set_option maxRecDepth 8000

/-!
Verification development for the Mermaid+Metadata parsing engine of the
repository (src/backend/mermaid_parser.py).  The Python functions are
shallowly embedded over `List Char`: each regular-expression operation of
the source is reimplemented as a dedicated, executable character scanner
whose doc comment quotes the Python pattern it models.  Python `\s`,
`str.strip`, `str.upper` and `str.isdigit` are modelled at ASCII level.
-/

namespace Codag

/-- Strings are modelled as lists of characters, so that scanners can be
written by structural recursion and evaluated by the kernel. -/
abbrev Str := List Char

/-- Converts a Lean string literal to the list-of-characters model. -/
def strL (s : String) : Str := s.toList

/-- ASCII model of Python whitespace (the default set stripped by
`str.strip` and matched by `\s`). -/
def isPyWs (c : Char) : Bool :=
  c = ' ' || c = '\t' || c = '\n' || c = '\r' || c = '\x0b' || c = '\x0c'

/-- Model of Python `str.lstrip()`. -/
def lstripL (s : Str) : Str := s.dropWhile isPyWs

/-- Model of Python `str.rstrip()`. -/
def rstripL (s : Str) : Str := (s.reverse.dropWhile isPyWs).reverse

/-- Model of Python `str.strip()`. -/
def pyStripL (s : Str) : Str := rstripL (lstripL s)

/-- ASCII model of Python `str.upper()` on one character. -/
def upperChar (c : Char) : Char :=
  if 'a' ≤ c ∧ c ≤ 'z' then Char.ofNat (c.toNat - 32) else c

/-- ASCII model of Python `str.upper()`. -/
def pyUpperL (s : Str) : Str := s.map upperChar

/-- ASCII model of Python `str.lower()` on one character. -/
def lowerChar (c : Char) : Char :=
  if 'A' ≤ c ∧ c ≤ 'Z' then Char.ofNat (c.toNat + 32) else c

/-- Model of Python `str.startswith`. -/
def startsWithL : Str → Str → Bool
  | _, [] => true
  | [], _ :: _ => false
  | a :: as, b :: bs => a = b && startsWithL as bs

/-- Model of Python `str.endswith`. -/
def endsWithL (s suf : Str) : Bool := startsWithL s.reverse suf.reverse

/-- Index of the first occurrence of `needle` in `hay`, if any;
the search model behind Python `str.find` and the `in` operator. -/
def findSubAux : Str → Str → Option Nat
  | [], needle => if startsWithL [] needle then some 0 else none
  | a :: t, needle =>
    if startsWithL (a :: t) needle then some 0
    else (findSubAux t needle).map (· + 1)

/-- Model of Python `str.find` (returns -1 when absent). -/
def pyFind (hay needle : Str) : Int :=
  match findSubAux hay needle with
  | some i => (i : Int)
  | none => -1

/-- Model of the Python substring test `needle in hay`. -/
def containsSub (hay needle : Str) : Bool := (findSubAux hay needle).isSome

/-- Helper for `pyRfindTo`: scans all start positions of `hay` (current
absolute position `i`), keeping the last occurrence of `needle` that ends
at or before `endPos`. -/
def rfindGo (needle : Str) (endPos : Nat) : Str → Nat → Int → Int
  | hay, i, best =>
    let best := if startsWithL hay needle && i + needle.length ≤ endPos then (i : Int) else best
    match hay with
    | [] => best
    | _ :: t => rfindGo needle endPos t (i + 1) best

/-- Model of Python `str.rfind(needle, 0, endPos)`. -/
def pyRfindTo (hay needle : Str) (endPos : Nat) : Int :=
  rfindGo needle endPos hay 0 (-1)

/-- Model of Python `str.rfind(needle)`. -/
def pyRfind (hay needle : Str) : Int := pyRfindTo hay needle hay.length

/-- Model of Python `str.split(c)` for a single-character separator. -/
def splitOnChar (c : Char) : Str → List Str
  | [] => [[]]
  | x :: xs =>
    match splitOnChar c xs with
    | [] => if x = c then [[], []] else [[x]]
    | h :: t => if x = c then [] :: h :: t else (x :: h) :: t

/-- Model of Python `str.split(sep)` for a non-empty separator string,
used for `node_id.split("::")`. -/
def splitOnSub (sep : Str) : Nat → Str → List Str
  | 0, s => [s]
  | fuel + 1, s =>
    match findSubAux s sep with
    | some i => s.take i :: splitOnSub sep fuel (s.drop (i + sep.length))
    | none => [s]

/-- Model of Python `node_id.split("::")` (separator is non-empty, so a
fuel of the string length suffices). -/
def pySplit (s sep : Str) : List Str := splitOnSub sep s.length s

/-- Model of Python `str.replace(old, new)` for a non-empty `old`,
used for `line.replace("%% Workflow:", "")`. -/
def replaceAllGo (old new : Str) : Nat → Str → Str
  | 0, s => s
  | fuel + 1, s =>
    match findSubAux s old with
    | some i => s.take i ++ new ++ replaceAllGo old new fuel (s.drop (i + old.length))
    | none => s

/-- Model of Python `str.replace(old, new)` (non-empty `old`). -/
def replaceAll (s old new : Str) : Str := replaceAllGo old new s.length s

/-- Model of Python `str.strip(chars)` with an explicit character set,
used for `label.strip("[]{}")` and `sanitize_id(...).strip("_")`. -/
def stripCharsL (cs : List Char) (s : Str) : Str :=
  ((s.dropWhile (cs.contains ·)).reverse.dropWhile (cs.contains ·)).reverse

/-- ASCII model of Python `str.isdigit`. -/
def pyIsDigit (s : Str) : Bool :=
  s ≠ [] && s.all (fun c => '0' ≤ c ∧ c ≤ '9')

/-- Numeric value of an ASCII digit string; model of Python `int(...)`
on a string that passed `isdigit`. -/
def strToNat (s : Str) : Nat :=
  s.foldl (fun acc c => acc * 10 + (c.toNat - '0'.toNat)) 0

/-- Index of the last occurrence of a character in a list, if any. -/
def lastIdxOf (c : Char) : Str → Option Nat
  | [] => none
  | x :: xs =>
    match lastIdxOf c xs with
    | some k => some (k + 1)
    | none => if x = c then some 0 else none

/-- Consumes the regex fragment `\s*\n` greedily at the head of `s`:
takes the maximal whitespace run and, when it contains a newline,
returns the rest of the string after the last newline of that run. -/
def dropThruLastNl (s : Str) : Option Str :=
  let r := s.takeWhile isPyWs
  (lastIdxOf '\n' r).map (fun k => s.drop (k + 1))

/-- Consumes the regex fragment `\s*$` at the head of `s2` under
`re.MULTILINE`: the match succeeds when, after some prefix of the maximal
whitespace run, the position is the end of the string or sits on a
newline; the greedy engine keeps the longest such prefix.  Returns the
rest of the string from the match end. -/
def matchWsThenEol (s2 : Str) : Option Str :=
  let r := s2.takeWhile isPyWs
  if s2.drop r.length = ([] : Str) then some []
  else (lastIdxOf '\n' r).map (fun k => s2.drop k)

/-- Match attempt, at a position starting with a newline, for the Python
pattern `\n³\s*\n+³(?:yaml|mermaid)?\s*\n` of `strip_markdown` (³ stands
for a triple backtick here); returns the rest after the match. -/
def tryFencePair (s : Str) : Option Str :=
  if startsWithL s (strL "\n```") then
    let s1 := s.drop 4
    let r := s1.takeWhile isPyWs
    if r ≠ [] && r.getLast? = some '\n' && startsWithL (s1.drop r.length) (strL "```") then
      let s2 := s1.drop (r.length + 3)
      if startsWithL s2 (strL "yaml") then dropThruLastNl (s2.drop 4)
      else if startsWithL s2 (strL "mermaid") then dropThruLastNl (s2.drop 7)
      else dropThruLastNl s2
    else none
  else none

/-- Scanner for `re.sub` with the pattern of `tryFencePair`, replacement
one newline: models line 34 of mermaid_parser.py. -/
def subFencePairGo : Nat → Str → Str
  | 0, s => s
  | _ + 1, [] => []
  | fuel + 1, c :: rest =>
    if c = '\n' then
      match tryFencePair (c :: rest) with
      | some r => '\n' :: subFencePairGo fuel r
      | none => c :: subFencePairGo fuel rest
    else c :: subFencePairGo fuel rest

/-- Model of `re.sub(r'\n³\s*\n+³(?:yaml|mermaid)?\s*\n', '\n', text)`. -/
def subFencePair (s : Str) : Str := subFencePairGo s.length s

/-- Match attempt, at a line start, for the MULTILINE Python pattern
`^³(?:mermaid|yaml)?\s*\n`; returns the rest after the match. -/
def tryFenceLine (s : Str) : Option Str :=
  if startsWithL s (strL "```") then
    let s2 := s.drop 3
    if startsWithL s2 (strL "mermaid") then
      match dropThruLastNl (s2.drop 7) with
      | some r => some r
      | none => dropThruLastNl s2
    else if startsWithL s2 (strL "yaml") then
      match dropThruLastNl (s2.drop 4) with
      | some r => some r
      | none => dropThruLastNl s2
    else dropThruLastNl s2
  else none

/-- Scanner for `re.sub(r'^³(?:mermaid|yaml)?\s*\n', '', text, flags=re.MULTILINE)`
(line 37 of mermaid_parser.py); the Bool flag tracks whether the current
position is a line start. -/
def subFenceLinesGo : Nat → Bool → Str → Str
  | 0, _, s => s
  | _ + 1, _, [] => []
  | fuel + 1, atLS, c :: rest =>
    if atLS then
      match tryFenceLine (c :: rest) with
      | some r => subFenceLinesGo fuel true r
      | none => c :: subFenceLinesGo fuel (c = '\n') rest
    else c :: subFenceLinesGo fuel (c = '\n') rest

/-- Model of the MULTILINE fence-line deletion sub of `strip_markdown`. -/
def subFenceLines (s : Str) : Str := subFenceLinesGo s.length true s

/-- Model of `re.sub(r'\n³\s*$', '', text)`: drops everything from the
first newline that is followed by a triple backtick and then only
whitespace up to the end of the string. -/
def subTrailFence : Str → Str
  | [] => []
  | c :: rest =>
    if c = '\n' && startsWithL rest (strL "```") && (rest.drop 3).all isPyWs then []
    else c :: subTrailFence rest

/-- Leading-fence removal step of `strip_markdown` (lines 19-26): on a
text starting with a fence, drop through the first newline when there is
one at a positive index, else drop the three fence characters. -/
def dropLeadFence (t : Str) : Str :=
  if startsWithL t (strL "```") then
    let fn := pyFind t (strL "\n")
    if fn > 0 then t.drop (fn.toNat + 1) else t.drop 3
  else t

/-- Trailing-fence removal step of `strip_markdown` (lines 28-30): when
the right-stripped text ends with a fence, the last three characters of
the right-stripped text are removed and the result right-stripped. -/
def dropTrailFence3 (t : Str) : Str :=
  if endsWithL (rstripL t) (strL "```") then
    rstripL ((rstripL t).take ((rstripL t).length - 3))
  else t

/-- Model of `strip_markdown` (mermaid_parser.py lines 12-40): strips a
leading fence line, a trailing fence, collapses mid-document fence pairs,
deletes remaining fence lines and a trailing fence remnant, and strips. -/
def strip_markdown (t : Str) : Str :=
  pyStripL (subTrailFence (subFenceLines (subFencePair (dropTrailFence3 (dropLeadFence (pyStripL t))))))

/-- Model of models.SourceLocation. -/
structure SourceLocation where
  file : Str
  line : Int
  function : Option Str
deriving Repr, DecidableEq

/-- Model of models.GraphNode restricted to the fields the parser ever
sets (temperature stays at its default and is omitted). -/
structure GraphNode where
  id : Str
  label : Str
  type : Str
  description : Option Str
  source : Option SourceLocation
  model : Option Str
deriving Repr, DecidableEq

/-- Model of models.GraphEdge restricted to the fields the parser ever
sets (payload and condition stay at their defaults and are omitted). -/
structure GraphEdge where
  source : Str
  target : Str
  label : Option Str
deriving Repr, DecidableEq

/-- Model of models.WorkflowMetadata restricted to the fields the parser
ever sets. -/
structure WorkflowMetadata where
  id : Str
  name : Str
  nodeIds : List Str
deriving Repr, DecidableEq

/-- Model of models.WorkflowGraph. -/
structure WorkflowGraph where
  nodes : List GraphNode
  edges : List GraphEdge
  llms_detected : List Str
  workflows : List WorkflowMetadata
deriving Repr, DecidableEq

/-- The empty graph returned on the sentinel path (line 68). -/
def emptyGraph : WorkflowGraph := ⟨[], [], [], []⟩

/-- Per-identifier override record from the metadata section; an absent
field models an absent dictionary key. -/
structure MetaOverride where
  file : Option Str := none
  line : Option Int := none
  function : Option Str := none
  type : Option Str := none
  model : Option Str := none
  description : Option Str := none
deriving Repr, DecidableEq

/-- Value attached to one identifier in the parsed metadata mapping:
either a dictionary (the expected case) or some non-dict value, which
mermaid_parser.py skips via its isinstance check. -/
inductive MetaVal where
  | mapping (m : MetaOverride)
  | other
deriving Repr, DecidableEq

/-- Parsed metadata mapping (a Python dict with unique keys, modelled as
an association list in insertion order). -/
abbrev Metadata := List (Str × MetaVal)

/-- Model of the Python dict lookups `node_id in metadata` and
`metadata[node_id]`. -/
def lookupMeta (md : Metadata) (id : Str) : Option MetaVal :=
  (md.find? (fun p => p.1 == id)).map (·.2)

/-- Match attempt, at a given position, for the Python pattern
`\n---\s*\n\s*metadata:` of the segmentation stage; returns the match
length.  The fragment `\s*\n\s*` consumes exactly the maximal whitespace
run (the following literal starts with a non-whitespace character) and
requires at least one newline inside it. -/
def trySepMeta (s : Str) : Option Nat :=
  if startsWithL s (strL "\n---") then
    let s1 := s.drop 4
    let r := s1.takeWhile isPyWs
    if r.contains '\n' && startsWithL (s1.drop r.length) (strL "metadata:") then
      some (4 + r.length + 9)
    else none
  else none

/-- Leftmost match of `trySepMeta`, as (start, end); models
`re.search(r'\n---\s*\n\s*metadata:', response)`. -/
def findSepMetaGo : Nat → Nat → Str → Option (Nat × Nat)
  | 0, _, _ => none
  | _ + 1, _, [] => none
  | fuel + 1, i, c :: rest =>
    match trySepMeta (c :: rest) with
    | some len => some (i, i + len)
    | none => findSepMetaGo fuel (i + 1) rest

/-- Leftmost match of the rule-1 separator pattern over a string. -/
def findSepMeta (s : Str) : Option (Nat × Nat) := findSepMetaGo s.length 0 s

/-- Model of the segmentation stage of parse_mermaid_response
(mermaid_parser.py lines 73-102).  An error carries the 200-character
preview embedded in the raised ValueError message. -/
def segmentResponse (response : Str) : Except Str (Str × Str) :=
  match findSepMeta response with
  | some (st, en) => .ok (response.take st, response.drop en)
  | none =>
    if containsSub response (strL "---") && containsSub response (strL "metadata:") then
      let mm := (pyFind response (strL "metadata:")).toNat
      let sep := pyRfindTo response (strL "---") mm
      if sep ≠ -1 then .ok (response.take sep.toNat, response.drop (mm + 9))
      else .error (response.take 200)
    else if containsSub response (strL "---") then
      let ls := (pyRfind response (strL "---")).toNat
      .ok (response.take ls, response.drop (ls + 3))
    else .error (response.take 200)

/-- Scanner for `re.sub(r'^NO_LLM_WORKFLOW.*$', '', metadata_part, flags=re.MULTILINE)`
(line 110): at a line start, a line beginning with NO_LLM_WORKFLOW has
its content up to the newline deleted. -/
def subLineGoA : Nat → Bool → Str → Str
  | 0, _, s => s
  | _ + 1, _, [] => []
  | fuel + 1, atLS, c :: rest =>
    if atLS && startsWithL (c :: rest) (strL "NO_LLM_WORKFLOW") then
      subLineGoA fuel false ((c :: rest).dropWhile (· ≠ '\n'))
    else c :: subLineGoA fuel (c = '\n') rest

/-- Match attempt, at a line start, for the MULTILINE Python pattern
`^NO_LLM\s.*$` (line 111).  The single `\s` may itself be the newline, in
which case `.*` swallows the following line, exactly as `re` does. -/
def tryNoLlmSpace (s : Str) : Option Str :=
  if startsWithL s (strL "NO_LLM") then
    match s.drop 6 with
    | [] => none
    | c :: r => if isPyWs c then some (r.dropWhile (· ≠ '\n')) else none
  else none

/-- Scanner for `re.sub(r'^NO_LLM\s.*$', '', metadata_part, flags=re.MULTILINE)`. -/
def subLineGoB : Nat → Bool → Str → Str
  | 0, _, s => s
  | _ + 1, _, [] => []
  | fuel + 1, atLS, c :: rest =>
    if atLS then
      match tryNoLlmSpace (c :: rest) with
      | some r => subLineGoB fuel false r
      | none => c :: subLineGoB fuel (c = '\n') rest
    else c :: subLineGoB fuel (c = '\n') rest

/-- Match attempt, at a line start, for a MULTILINE pattern of the form
`^OPENER\s*$` (used with NO_LLM on line 112 and with --- on line 119). -/
def tryBareLine (opener : Str) (s : Str) : Option Str :=
  if startsWithL s opener then matchWsThenEol (s.drop opener.length) else none

/-- Scanner for `re.sub(r'^OPENER\s*$', '', metadata_part, flags=re.MULTILINE)`. -/
def subBareLineGo (opener : Str) : Nat → Bool → Str → Str
  | 0, _, s => s
  | _ + 1, _, [] => []
  | fuel + 1, atLS, c :: rest =>
    if atLS then
      match tryBareLine opener (c :: rest) with
      | some r => subBareLineGo opener fuel false r
      | none => c :: subBareLineGo opener fuel (c = '\n') rest
    else c :: subBareLineGo opener fuel (c = '\n') rest

/-- Model of the metadata-part cleanup of parse_mermaid_response
(mermaid_parser.py lines 104-120). -/
def cleanupMetadata (mp : Str) : Str :=
  let mp := pyStripL (strip_markdown mp)
  let mp := if startsWithL mp (strL "metadata:") then pyStripL (mp.drop 9) else mp
  let mp := subLineGoA mp.length true mp
  let mp := subLineGoB mp.length true mp
  let mp := subBareLineGo (strL "NO_LLM") mp.length true mp
  let mp :=
    if containsSub mp (strL "\n---") then mp.take ((pyFind mp (strL "\n---")).toNat)
    else mp
  let mp := subBareLineGo (strL "---") mp.length true mp
  pyStripL mp

/-- Character class of the node-id fragment `[^\s\[\](){}]` of the shape
patterns in parse_flowchart. -/
def isNodeIdChar (c : Char) : Bool :=
  !(isPyWs c || c = '[' || c = ']' || c = '(' || c = ')' || c = '\x7b' || c = '\x7d')

/-- Character class of the edge-id fragment `[^\s\[\](){}|>]` of the edge
pattern in parse_flowchart. -/
def isEdgeIdChar (c : Char) : Bool :=
  isNodeIdChar c && !(c = '|' || c = '>')

/-- Delimiters of one node-shape pattern `ID openS [^stopC]+ closeS`.
Since the id class excludes every opening delimiter and the label class
cannot contain its stop character, the regex engine has a unique viable
decomposition, which `tryShape` computes directly. -/
structure ShapeSpec where
  openS : Str
  stopC : Char
  closeS : Str

/-- Match attempt for one node-shape pattern at the head of `s`; returns
(identifier, raw label, rest after the match). -/
def tryShape (sp : ShapeSpec) (s : Str) : Option (Str × Str × Str) :=
  let idRun := s.takeWhile isNodeIdChar
  if idRun = [] then none
  else
    let s1 := s.drop idRun.length
    if startsWithL s1 sp.openS then
      let s2 := s1.drop sp.openS.length
      let lbl := s2.takeWhile (· ≠ sp.stopC)
      if lbl = [] then none
      else
        let s3 := s2.drop lbl.length
        if startsWithL s3 sp.closeS then some (idRun, lbl, s3.drop sp.closeS.length)
        else none
    else none

/-- Model of `re.finditer` for one node-shape pattern: leftmost,
non-overlapping matches in order. -/
def scanShapesGo (sp : ShapeSpec) : Nat → Str → List (Str × Str)
  | 0, _ => []
  | _ + 1, [] => []
  | fuel + 1, c :: rest =>
    match tryShape sp (c :: rest) with
    | some (i, l, after) => (i, l) :: scanShapesGo sp fuel after
    | none => scanShapesGo sp fuel rest

/-- All matches of one node-shape pattern on a line. -/
def scanShapes (sp : ShapeSpec) (line : Str) : List (Str × Str) :=
  scanShapesGo sp line.length line

/-- Shape `A[[label]]` (subroutine, type step). -/
def spSub : ShapeSpec := ⟨strL "[[", ']', strL "]]"⟩

/-- Shape `A([label])` (stadium, type llm). -/
def spStad : ShapeSpec := ⟨strL "([", ']', strL "])"⟩

/-- Shape of a curly-brace diamond `A` followed by a braced label
(type decision). -/
def spCur : ShapeSpec := ⟨strL "\x7b", '\x7d', strL "\x7d"⟩

/-- Shape `A[label]` (rectangle, type step). -/
def spSq : ShapeSpec := ⟨strL "[", ']', strL "]"⟩

/-- Shape `A(label)` (rounded, type step). -/
def spPar : ShapeSpec := ⟨strL "(", ')', strL ")"⟩

/-- Model of `match.group(2).strip()` followed by `label.strip("[]{}")`
(parse_flowchart lines 238-240). -/
def cleanLabel (l : Str) : Str := stripCharsL (strL "[]\x7b\x7d") (pyStripL l)

/-- Model of the first-match-wins node insertion (parse_flowchart lines
242-244): a node is created only when its id is not yet present. -/
def insertNode (ns : List GraphNode) (id lbl ty : Str) : List GraphNode :=
  if ns.any (fun n => n.id == id) then ns
  else ns ++ [⟨id, cleanLabel lbl, ty, none, none, none⟩]

/-- Inserts all matches of one pattern, in match order. -/
def addMatches (ty : Str) : List (Str × Str) → List GraphNode → List GraphNode
  | [], ns => ns
  | (i, l) :: ms, ns => addMatches ty ms (insertNode ns i l ty)

/-- Model of the ordered first pass over one line (parse_flowchart lines
234-244): the five shape patterns are applied in order, most specific
first. -/
def collectLineNodes (ns : List GraphNode) (line : Str) : List GraphNode :=
  let ns := addMatches (strL "step") (scanShapes spSub line) ns
  let ns := addMatches (strL "llm") (scanShapes spStad line) ns
  let ns := addMatches (strL "decision") (scanShapes spCur line) ns
  let ns := addMatches (strL "step") (scanShapes spSq line) ns
  addMatches (strL "step") (scanShapes spPar line) ns

/-- Edge-pattern shape suffix alternative `\[[^\]]*\]`. -/
def altBracket : Str → Option Str
  | '[' :: r =>
    let run := r.takeWhile (· ≠ ']')
    match r.drop run.length with
    | ']' :: rest => some rest
    | _ => none
  | _ => none

/-- Edge-pattern shape suffix alternative `\(\[[^\]]*\]\)`. -/
def altStadium (s : Str) : Option Str :=
  if startsWithL s (strL "([") then
    let r := s.drop 2
    let run := r.takeWhile (· ≠ ']')
    match r.drop run.length with
    | ']' :: ')' :: rest => some rest
    | _ => none
  else none

/-- Edge-pattern shape suffix alternative matching a braced label. -/
def altCurly : Str → Option Str
  | '\x7b' :: r =>
    let run := r.takeWhile (· ≠ '\x7d')
    match r.drop run.length with
    | '\x7d' :: rest => some rest
    | _ => none
  | _ => none

/-- Edge-pattern shape suffix alternative `\([^)]*\)`. -/
def altParen : Str → Option Str
  | '(' :: r =>
    let run := r.takeWhile (· ≠ ')')
    match r.drop run.length with
    | ')' :: rest => some rest
    | _ => none
  | _ => none

/-- Continuation of the edge pattern after the optional shape suffix:
`\s*-->\s*(?:\|([^|]*)\|)?\s*({edge_id})`; returns (raw label group,
target id, rest).  When a pipe opens but never closes, the optional group
fails and the target run then starts on the pipe character, which is
outside the edge-id class, so the whole continuation fails. -/
def contEdge (s : Str) : Option (Option Str × Str × Str) :=
  let s1 := s.dropWhile isPyWs
  if startsWithL s1 (strL "-->") then
    let s2 := (s1.drop 3).dropWhile isPyWs
    let lblRest : Option Str × Str :=
      match s2 with
      | '|' :: r =>
        let run := r.takeWhile (· ≠ '|')
        match r.drop run.length with
        | '|' :: rest => (some run, rest)
        | _ => (none, s2)
      | _ => (none, s2)
    let s4 := lblRest.2.dropWhile isPyWs
    let tgt := s4.takeWhile isEdgeIdChar
    if tgt = [] then none
    else some (lblRest.1, tgt, s4.drop tgt.length)
  else none

/-- Match attempt for the edge pattern with a source run of exactly `k`
characters; the greedy engine backtracks the source run from its maximal
length downwards, and within each length tries the four shape suffix
alternatives in pattern order and then the empty alternative. -/
def tryEdgeSrcLen (s : Str) : Nat → Option (Str × Option Str × Str × Str)
  | 0 => none
  | k + 1 =>
    let src := s.take (k + 1)
    let rest := s.drop (k + 1)
    let res :=
      match (altBracket rest).bind contEdge with
      | some x => some x
      | none =>
        match (altStadium rest).bind contEdge with
        | some x => some x
        | none =>
          match (altCurly rest).bind contEdge with
          | some x => some x
          | none =>
            match (altParen rest).bind contEdge with
            | some x => some x
            | none => contEdge rest
    match res with
    | some (lbl, tgt, after) => some (src, lbl, tgt, after)
    | none => tryEdgeSrcLen s k

/-- Match attempt for the whole edge pattern at the head of `s`. -/
def tryEdge (s : Str) : Option (Str × Option Str × Str × Str) :=
  tryEdgeSrcLen s (s.takeWhile isEdgeIdChar).length

/-- Model of `re.findall(edge_pattern, line)` combined with the label
normalization of parse_flowchart lines 247-254: an absent or empty label
group becomes None, otherwise the label is stripped. -/
def scanEdgesGo : Nat → Str → List (Str × Str × Option Str)
  | 0, _ => []
  | _ + 1, [] => []
  | fuel + 1, c :: rest =>
    match tryEdge (c :: rest) with
    | some (src, lblRaw, tgt, after) =>
      let lbl : Option Str :=
        match lblRaw with
        | none => none
        | some l => if l = [] then none else some (pyStripL l)
      if src ≠ [] && tgt ≠ [] then (src, tgt, lbl) :: scanEdgesGo fuel after
      else scanEdgesGo fuel after
    | none => scanEdgesGo fuel rest

/-- All raw edges (source, target, label) found on a line. -/
def scanEdges (line : Str) : List (Str × Str × Option Str) :=
  scanEdgesGo line.length line

/-- Model of the per-line loop of parse_flowchart (lines 233-254): each
line contributes its shape-defined nodes and then its raw edges. -/
def scanLines :
    List Str → List GraphNode → List (Str × Str × Option Str) →
    List GraphNode × List (Str × Str × Option Str)
  | [], ns, es => (ns, es)
  | l :: rest, ns, es => scanLines rest (collectLineNodes ns l) (es ++ scanEdges l)

/-- Nodes collected from the lines of one diagram block, in insertion
order. -/
def collectNodes (lines : List Str) : List GraphNode := (scanLines lines [] []).1

/-- Raw edges collected from the lines of one diagram block, in order. -/
def rawEdgesOf (lines : List Str) : List (Str × Str × Option Str) :=
  (scanLines lines [] []).2

/-- The VALID_TYPES set of parse_flowchart. -/
def validTypes : List Str := [strL "step", strL "llm", strL "decision"]

/-- Model of the metadata enrichment of one node (parse_flowchart lines
260-295): type/model/description overlay, source from file+line, then
identifier-based source inference. -/
def enrichNode (md : Metadata) (n : GraphNode) : GraphNode :=
  let n :=
    match lookupMeta md n.id with
    | some (.mapping m) =>
      let n :=
        match m.type with
        | some t => { n with type := if validTypes.contains t then t else strL "step" }
        | none => n
      let n := match m.model with | some v => { n with model := some v } | none => n
      let n :=
        match m.description with
        | some v => { n with description := some v }
        | none => n
      match m.file, m.line with
      | some f, some ln => { n with source := some ⟨f, ln, m.function⟩ }
      | _, _ => n
    | _ => n
  if n.source = none && containsSub n.id (strL "::") then
    let parts := pySplit n.id (strL "::")
    if parts.length ≥ 2 then
      let lnStr := parts.getD 2 []
      let ln : Int :=
        if parts.length ≥ 3 && pyIsDigit lnStr then (strToNat lnStr : Int) else 0
      { n with source := some ⟨parts.getD 0 [], ln, some (parts.getD 1 [])⟩ }
    else n
  else n

/-- Diagnostic entries printed when a metadata type outside VALID_TYPES
is normalized (parse_flowchart line 268), in node order. -/
def normTypeDiag (md : Metadata) (ns : List GraphNode) : List (Str × Str) :=
  ns.filterMap (fun n =>
    match lookupMeta md n.id with
    | some (.mapping m) =>
      match m.type with
      | some t => if validTypes.contains t then none else some (n.id, t)
      | none => none
    | _ => none)

/-- Model of the edge-validation loop (parse_flowchart lines 297-311):
returns (kept edges, cross-batch targets, skipped edges). -/
def validateEdges (ns : List GraphNode) (raw : List (Str × Str × Option Str)) :
    List GraphEdge × List Str × List (Str × Str) :=
  raw.foldl
    (fun acc r =>
      let (es, cbt, sk) := acc
      if ns.any (fun n => n.id == r.1) then
        (es ++ [⟨r.1, r.2.1, r.2.2⟩],
         if ns.any (fun n => n.id == r.2.1) then cbt else cbt ++ [r.2.1],
         sk)
      else (es, cbt, sk ++ [(r.1, r.2.1)]))
    ([], [], [])

/-- Result of parse_flowchart; the three trailing lists model the
diagnostics the Python function prints (cross-batch targets, skipped
edges, nodes without source). -/
structure FlowResult where
  nodes : List GraphNode
  edges : List GraphEdge
  crossBatchTargets : List Str
  skippedEdges : List (Str × Str)
  normalizedTypes : List (Str × Str)
  nodesWithoutSource : List Str
deriving Repr, DecidableEq

/-- Model of parse_flowchart (mermaid_parser.py lines 205-321). -/
def parse_flowchart (lines : List Str) (metadata : Metadata) : FlowResult :=
  let scanned := scanLines lines [] []
  let ns := scanned.1.map (enrichNode metadata)
  let ve := validateEdges ns scanned.2
  { nodes := ns, edges := ve.1, crossBatchTargets := ve.2.1, skippedEdges := ve.2.2,
    normalizedTypes := normTypeDiag metadata scanned.1,
    nodesWithoutSource := ns.filterMap (fun n => if n.source = none then some n.id else none) }

/-- Loop body of parse_workflows (mermaid_parser.py lines 179-200), with
state (current name, current lines, finished blocks). -/
def pwGo : List Str → Str → List Str → List (Str × List Str) → List (Str × List Str)
  | [], name, cur, acc => if cur ≠ [] then acc ++ [(name, cur)] else acc
  | l :: rest, name, cur, acc =>
    let l := pyStripL l
    if startsWithL l (strL "flowchart") then
      pwGo rest (strL "Main Workflow") [] (if cur ≠ [] then acc ++ [(name, cur)] else acc)
    else if startsWithL l (strL "%% Workflow:") then
      pwGo rest (pyStripL (replaceAll l (strL "%% Workflow:") [])) cur acc
    else if l ≠ [] && !startsWithL l (strL "%%") then
      pwGo rest name (cur ++ [l]) acc
    else pwGo rest name cur acc

/-- Model of parse_workflows (mermaid_parser.py lines 170-202). -/
def parse_workflows (diagram : Str) : List (Str × List Str) :=
  pwGo (splitOnChar '\n' (pyStripL diagram)) (strL "Main Workflow") [] []

/-- Membership in the character class `[a-z0-9_]` of sanitize_id. -/
def inIdClass (c : Char) : Bool :=
  ('a' ≤ c && c ≤ 'z') || ('0' ≤ c && c ≤ '9') || c = '_'

/-- Model of sanitize_id (mermaid_parser.py lines 324-326):
`re.sub(r'[^a-z0-9_]', '_', name.lower()).strip('_')`. -/
def sanitize_id (name : Str) : Str :=
  stripCharsL ['_'] ((name.map lowerChar).map (fun c => if inIdClass c then c else '_'))

/-- Refinement comparison point for claim C9, written from the words of
the spec alone: the workflow id equals the name lowercased with every
character outside `[a-z0-9_]` replaced by an underscore (no prefix, no
stripping). -/
def specWorkflowId (name : Str) : Str :=
  (name.map lowerChar).map (fun c => if inIdClass c then c else '_')

/-- Model of Python `list(set(llms))` at line 165.  CPython set iteration
order is unspecified; the model keeps the first occurrence of each
element, which is order-equivalent for the properties proved here. -/
def dedupKeepFirst (l : List Str) : List Str :=
  l.foldl (fun acc s => if acc.contains s then acc else acc ++ [s]) []

/-- Body of the per-block assembly loop of parse_mermaid_response (lines
138-157): parse the block, deduplicate nodes by id into the accumulator,
concatenate edges, and emit one workflow record when the block has
nodes. -/
def assembleStep (md : Metadata)
    (acc : List GraphNode × List GraphEdge × List WorkflowMetadata)
    (wf : Str × List Str) : List GraphNode × List GraphEdge × List WorkflowMetadata :=
  let (allNodes, allEdges, wmeta) := acc
  let fr := parse_flowchart wf.2 md
  let allNodes := fr.nodes.foldl
    (fun ns n => if ns.any (fun m => m.id == n.id) then ns else ns ++ [n]) allNodes
  let allEdges := allEdges ++ fr.edges
  let nodeIds := fr.nodes.map (·.id)
  let wmeta :=
    if nodeIds ≠ [] then
      wmeta ++ [⟨strL "workflow_" ++ sanitize_id wf.1, wf.1, nodeIds⟩]
    else wmeta
  (allNodes, allEdges, wmeta)

/-- Model of the assembly of parse_mermaid_response (lines 130-167):
per-block parsing and accumulation, then LLM collection. -/
def assembleResponse (diagramPart : Str) (md : Metadata) : WorkflowGraph :=
  let acc := (parse_workflows diagramPart).foldl (assembleStep md)
    (([] : List GraphNode), ([] : List GraphEdge), ([] : List WorkflowMetadata))
  let llms := (acc.1.filterMap (·.model)).filter (· ≠ [])
  { nodes := acc.1, edges := acc.2.1, llms_detected := dedupKeepFirst llms,
    workflows := acc.2.2 }

/-- Errors of parse_mermaid_response, named per the spec taxonomy; both
are raised as ValueError in Python, distinguished by their messages, and
each carries the 200-character preview embedded in that message. -/
inductive PipeError where
  | missingSeparator (preview : Str)
  | invalidMetadataBody (msg : Str) (preview : Str)
deriving Repr, DecidableEq

/-- Model of the sentinel check of parse_mermaid_response (lines 65-66). -/
def isSentinelResp (r : Str) : Bool :=
  startsWithL (pyUpperL (pyStripL r)) (strL "NO_LLM") ||
    startsWithL (pyUpperL (pyStripL r)) (strL "NO LLM")

/-- Model of the body of parse_mermaid_response after markdown
stripping (mermaid_parser.py lines 64-167), parameterized by the
third-party `yaml.safe_load`, whose raised YAMLError is modelled as the
error case of an Except and whose None result is modelled as
`Except.ok none`. -/
def parseCleaned (yamlLoad : Str → Except Str (Option Metadata))
    (response : Str) : Except PipeError WorkflowGraph :=
  if isSentinelResp response then .ok emptyGraph
  else
    match segmentResponse response with
    | .error pv => .error (.missingSeparator pv)
    | .ok (diagramPart, metaPart0) =>
      match yamlLoad (cleanupMetadata metaPart0) with
      | .error e => .error (.invalidMetadataBody e ((cleanupMetadata metaPart0).take 200))
      | .ok m => .ok (assembleResponse diagramPart (m.getD []))

/-- Model of parse_mermaid_response (mermaid_parser.py lines 43-167):
markdown stripping (line 62) followed by the rest of the pipeline. -/
def parse_mermaid_response (yamlLoad : Str → Except Str (Option Metadata))
    (response : Str) : Except PipeError WorkflowGraph :=
  parseCleaned yamlLoad (strip_markdown response)

/-- Sections produced by the stages before metadata loading: none when
the sentinel fires or segmentation fails. -/
def segmentedOf (s : Str) : Option (Str × Str) :=
  let r := strip_markdown s
  if isSentinelResp r then none
  else
    match segmentResponse r with
    | .ok p => some p
    | .error _ => none

/-- Cleaned metadata section reaching the YAML loader, when one does. -/
def metaPartOf (s : Str) : Option Str := (segmentedOf s).map (fun p => cleanupMetadata p.2)

/-- Diagram section produced by segmentation (empty when none is). -/
def diagramPartOf (s : Str) : Str := ((segmentedOf s).map (·.1)).getD []

/-- Unquotes a double-quoted YAML flow scalar, leaving bare scalars
unchanged. -/
def parseYamlScalar (v : Str) : Str :=
  if v.length ≥ 2 && v.headD ' ' = '"' && v.getLast? = some '"' then
    (v.drop 1).take (v.length - 2)
  else v

/-- Records one `key: value` flow-mapping pair into an override record;
keys outside the six known ones are ignored by the engine and dropped
here. -/
def applyMetaKey (m : MetaOverride) (k v : Str) : Except Str MetaOverride :=
  if k = strL "file" then .ok { m with file := some (parseYamlScalar v) }
  else if k = strL "line" then
    if pyIsDigit v then .ok { m with line := some (strToNat v : Int) }
    else .error (strL "invalid line value")
  else if k = strL "function" then .ok { m with function := some (parseYamlScalar v) }
  else if k = strL "type" then .ok { m with type := some (parseYamlScalar v) }
  else if k = strL "model" then .ok { m with model := some (parseYamlScalar v) }
  else if k = strL "description" then .ok { m with description := some (parseYamlScalar v) }
  else .ok m

/-- Parses the comma-separated pairs inside one flow mapping. -/
def parseMetaPairs : List Str → MetaOverride → Except Str MetaOverride
  | [], m => .ok m
  | p :: ps, m =>
    match findSubAux p (strL ":") with
    | some i =>
      match applyMetaKey m (pyStripL (p.take i)) (pyStripL (p.drop (i + 1))) with
      | .ok m2 => parseMetaPairs ps m2
      | .error e => .error e
    | none => .error (strL "invalid mapping pair")

/-- Parses one `identifier: {key: value, ...}` metadata line; a value
that is not a flow mapping models a non-dict YAML value. -/
def parseMetaLine (l : Str) : Except Str (Str × MetaVal) :=
  match findSubAux l (strL ":") with
  | some i =>
    let key := pyStripL (l.take i)
    let rest := pyStripL (l.drop (i + 1))
    if key = [] then .error (strL "invalid key")
    else if startsWithL rest (strL "\x7b") && rest.getLast? = some '\x7d' then
      let inner := (rest.drop 1).take (rest.length - 2)
      match parseMetaPairs (splitOnChar ',' inner) {} with
      | .ok m => .ok (key, .mapping m)
      | .error e => .error e
    else .ok (key, .other)
  | none => .error (strL "document is not a mapping")

/-- Model of the third-party `yaml.safe_load` restricted to the flat
per-identifier mapping format of spec section 4.4 (one
`identifier: {key: value, ...}` per line, the format every concrete input
of this development uses): an empty document loads as null, a malformed
document is a YAMLError, duplicate keys keep the last value. -/
def yamlLoadModel (s : Str) : Except Str (Option Metadata) :=
  let ls := ((splitOnChar '\n' s).map pyStripL).filter (· ≠ [])
  if ls = [] then .ok none
  else
    let step := fun (acc : Except Str Metadata) (l : Str) =>
      match acc with
      | .error e => .error e
      | .ok md =>
        match parseMetaLine l with
        | .ok (k, v) => .ok ((md.filter (fun p => p.1 != k)) ++ [(k, v)])
        | .error e => .error e
    match ls.foldl step (.ok []) with
    | .ok md => .ok (some md)
    | .error e => .error e

end Codag

deriving instance DecidableEq for Except

namespace Codag

/-- End-to-end example input of spec section 8: one flowchart block named
Demo with four nodes and three edges, a separator, and a metadata block
giving each node a source location and node B a model. -/
def exampleResponse : Str :=
  strL "flowchart TD\n%% Workflow: Demo\nA[Start] --> B([Call Model])\nB --> C\x7bOk?\x7d\nC -->|yes| D[Done]\n\n---\nmetadata:\nA: \x7bfile: \"m.py\", line: 1, function: \"f\"\x7d\nB: \x7bfile: \"m.py\", line: 2, function: \"g\", model: \"gpt\"\x7d\nC: \x7bfile: \"m.py\", line: 3, function: \"h\"\x7d\nD: \x7bfile: \"m.py\", line: 4, function: \"i\"\x7d"

/-- Lookup of a node by id in a node list (the dict lookup of the
per-block nodes dictionary). -/
def findNode (ns : List GraphNode) (id : Str) : Option GraphNode :=
  ns.find? (fun n => n.id == id)

/-- Type of the node with a given id in a graph, if present. -/
def nodeTypeOf (g : WorkflowGraph) (id : Str) : Option Str :=
  (g.nodes.find? (fun n => n.id == id)).map (·.type)

/-- Graph computed by the pipeline on the end-to-end example input. -/
def exampleGraph : WorkflowGraph :=
  (parse_mermaid_response yamlLoadModel exampleResponse).toOption.getD emptyGraph

/-- A response with two diagram blocks of which only the first declares
any node: block Demo! has node A, block Other has only an edge between
undeclared identifiers. -/
def twoBlockResponse : Str :=
  strL "flowchart TD\n%% Workflow: Demo!\nA[Start]\nflowchart TD\n%% Workflow: Other\nx --> y\n\n---\nmetadata:\n"

/-- A response whose metadata section is empty after cleanup, so the
YAML loader returns null. -/
def nullMetaResponse : Str := strL "flowchart TD\nA[x]\n\n---\nmetadata:\n"

/-- Claim C1: on the end-to-end example input of the spec,
parse_mermaid_response returns a Graph with 4 nodes whose types are step
for A, llm for B, decision for C and step for D, the 3 edges A to B,
B to C, and C to D labeled yes, exactly one workflow named Demo
containing all four node ids, and llmsDetected equal to [gpt]. -/
theorem C1_end_to_end :
    (parse_mermaid_response yamlLoadModel exampleResponse).toOption = some exampleGraph ∧
    exampleGraph.nodes.length = 4 ∧
    nodeTypeOf exampleGraph (strL "A") = some (strL "step") ∧
    nodeTypeOf exampleGraph (strL "B") = some (strL "llm") ∧
    nodeTypeOf exampleGraph (strL "C") = some (strL "decision") ∧
    nodeTypeOf exampleGraph (strL "D") = some (strL "step") ∧
    exampleGraph.edges = [⟨strL "A", strL "B", none⟩, ⟨strL "B", strL "C", none⟩,
      ⟨strL "C", strL "D", some (strL "yes")⟩] ∧
    exampleGraph.workflows.map (·.name) = [strL "Demo"] ∧
    (∀ w ∈ exampleGraph.workflows, ∀ i ∈ [strL "A", strL "B", strL "C", strL "D"], i ∈ w.nodeIds) ∧
    exampleGraph.llms_detected = [strL "gpt"] := by
  decide

end Codag

namespace Codag

theorem toNat_ofNat_valid (n : Nat) (h : n < 55296) : (Char.ofNat n).toNat = n := by
  rw [Char.ofNat, dif_pos (Or.inl h)]
  rfl

theorem char_toNat_inj {a b : Char} (h : a.toNat = b.toNat) : a = b :=
  Char.eq_of_val_eq (UInt32.eq_of_toBitVec_eq (BitVec.eq_of_toNat_eq h))

theorem char_le_iff (a b : Char) : a ≤ b ↔ a.toNat ≤ b.toNat := by
  rw [Char.le_def, UInt32.le_def, BitVec.le_def]
  exact Iff.rfl

theorem upperChar_eq_self_or (c : Char) :
    upperChar c = c ∨ (97 ≤ c.toNat ∧ c.toNat ≤ 122 ∧ (upperChar c).toNat + 32 = c.toNat) := by
  unfold upperChar
  split
  · rename_i h
    right
    have h1 : 97 ≤ c.toNat := by
      have := (char_le_iff 'a' c).mp h.1
      simpa using this
    have h2 : c.toNat ≤ 122 := by
      have := (char_le_iff c 'z').mp h.2
      simpa using this
    refine ⟨h1, h2, ?_⟩
    rw [toNat_ofNat_valid _ (by omega)]
    omega
  · left
    rfl

theorem isPyWs_toNat_mem {c : Char} (h : isPyWs c = true) :
    c.toNat = 32 ∨ c.toNat = 9 ∨ c.toNat = 10 ∨ c.toNat = 13 ∨ c.toNat = 11 ∨ c.toNat = 12 := by
  unfold isPyWs at h
  simp only [Bool.or_eq_true, decide_eq_true_eq] at h
  rcases h with ((((h | h) | h) | h) | h) | h <;> subst h <;> decide

theorem sent_char_facts {c x : Char} (hx : x ∈ strL "NO_LLM_WORKFLOW")
    (h : upperChar c = x) : isPyWs c = false ∧ c ≠ '\n' ∧ c ≠ '`' := by
  rcases upperChar_eq_self_or c with h1 | ⟨h97, h122, heq⟩
  · rw [h1] at h
    subst h
    have hall : ∀ y ∈ strL "NO_LLM_WORKFLOW", isPyWs y = false ∧ y ≠ '\n' ∧ y ≠ '`' := by
      decide
    exact hall _ hx
  · refine ⟨?_, ?_, ?_⟩
    · cases hws : isPyWs c
      · rfl
      · exfalso
        rcases isPyWs_toNat_mem hws with h2 | h2 | h2 | h2 | h2 | h2 <;> omega
    · intro hc
      subst hc
      exact absurd h97 (by decide)
    · intro hc
      subst hc
      exact absurd h97 (by decide)

theorem startsWithL_iff {l p : Str} : startsWithL l p = true ↔ ∃ r, l = p ++ r := by
  induction p generalizing l with
  | nil =>
    exact ⟨fun _ => ⟨l, by simp⟩, fun _ => by cases l <;> rfl⟩
  | cons b bs ih =>
    cases l with
    | nil =>
      simp only [startsWithL]
      constructor
      · intro h
        cases h
      · rintro ⟨r, hr⟩
        cases hr
    | cons a as =>
      show (decide (a = b) && startsWithL as bs) = true ↔ _
      simp only [Bool.and_eq_true, decide_eq_true_eq, ih]
      constructor
      · rintro ⟨rfl, r, rfl⟩
        exact ⟨r, rfl⟩
      · rintro ⟨r, hr⟩
        rw [List.cons_append] at hr
        cases hr
        exact ⟨rfl, r, rfl⟩

theorem append_startsWithL (p r : Str) : startsWithL (p ++ r) p = true :=
  startsWithL_iff.mpr ⟨r, rfl⟩

theorem startsWithL_cons_false {a b : Char} {l p : Str} (hab : a ≠ b) :
    startsWithL (a :: l) (b :: p) = false := by
  show (decide (a = b) && startsWithL l p) = false
  simp [hab]

theorem endsWithL_iff {s suf : Str} : endsWithL s suf = true ↔ ∃ init, s = init ++ suf := by
  unfold endsWithL
  rw [startsWithL_iff]
  constructor
  · rintro ⟨r, hr⟩
    refine ⟨r.reverse, ?_⟩
    have := congrArg List.reverse hr
    simpa using this
  · rintro ⟨init, rfl⟩
    exact ⟨init.reverse, by simp⟩

theorem sentinel_decomp {t : Str}
    (h : startsWithL (pyUpperL t) (strL "NO_LLM_WORKFLOW") = true) :
    ∃ pre rest, t = pre ++ rest ∧ pre.map upperChar = strL "NO_LLM_WORKFLOW" := by
  rcases startsWithL_iff.mp h with ⟨r, hr⟩
  unfold pyUpperL at hr
  refine ⟨t.take 15, t.drop 15, (List.take_append_drop 15 t).symm, ?_⟩
  have h15 : (t.map upperChar).take 15 = strL "NO_LLM_WORKFLOW" := by
    rw [hr]
    exact List.take_left' rfl
  rw [List.map_take]
  exact h15

end Codag

namespace Codag

theorem dropWhile_eq_self_of_head {p : Char → Bool} {l : Str} (hne : l ≠ [])
    (h : ∀ c ∈ l, p c = false) : l.dropWhile p = l := by
  cases l with
  | nil => cases hne rfl
  | cons a as =>
    rw [List.dropWhile_cons, h a (List.mem_cons_self a as)]
    simp

theorem lstripL_append {pre : Str} (r : Str) (hne : pre ≠ [])
    (h : ∀ c ∈ pre, isPyWs c = false) : lstripL (pre ++ r) = pre ++ r := by
  unfold lstripL
  cases pre with
  | nil => cases hne rfl
  | cons a as =>
    rw [List.cons_append, List.dropWhile_cons, h a (List.mem_cons_self a as)]
    simp

theorem rstripL_append {pre : Str} (r : Str) (hne : pre ≠ [])
    (h : ∀ c ∈ pre, isPyWs c = false) : rstripL (pre ++ r) = pre ++ rstripL r := by
  unfold rstripL
  rw [List.reverse_append, List.dropWhile_append]
  have hpre : pre.reverse.dropWhile isPyWs = pre.reverse :=
    dropWhile_eq_self_of_head (by simpa using hne) (fun c hc => h c (List.mem_reverse.mp hc))
  split
  · rename_i h1
    rw [hpre, List.reverse_reverse]
    have h2 : r.reverse.dropWhile isPyWs = [] := by simpa using h1
    rw [h2]
    simp
  · rw [List.reverse_append, List.reverse_reverse]

theorem pyStripL_append {pre : Str} (r : Str) (hne : pre ≠ [])
    (h : ∀ c ∈ pre, isPyWs c = false) : pyStripL (pre ++ r) = pre ++ rstripL r := by
  unfold pyStripL
  rw [lstripL_append r hne h, rstripL_append r hne h]

theorem grab_backtick {pre q init : Str} (hq : q.length < 3)
    (hinit : pre ++ q = init ++ strL "```") : '`' ∈ pre := by
  have hlens : pre.length + q.length = init.length + 3 := by
    have := congrArg List.length hinit
    simpa using this
  have hi : init.length < pre.length := by omega
  have hileft : init.length < (pre ++ q).length := by
    simp [List.length_append]
    omega
  have hb : init.length < (init ++ strL "```").length := by
    rw [List.length_append]
    have h3 : (strL "```").length = 3 := rfl
    omega
  have h1 : (pre ++ q)[init.length] = pre[init.length] :=
    List.getElem_append_left hi
  have h2 : (init ++ strL "```")[init.length] = '`' := by
    rw [List.getElem_append_right (Nat.le_refl _)]
    simp only [Nat.sub_self]
    rfl
  have h3 := List.getElem_of_eq hinit hileft
  have h4 : pre[init.length] = '`' := by
    rw [← h1, h3]
    exact h2
  rw [← h4]
  exact List.getElem_mem hi

end Codag

namespace Codag

theorem subFencePairGo_append {pre : Str} (hnl : ∀ c ∈ pre, c ≠ '\n') :
    ∀ (fuel : Nat) (r : Str),
      subFencePairGo (pre.length + fuel) (pre ++ r) = pre ++ subFencePairGo fuel r := by
  induction pre with
  | nil => intro fuel r; simp
  | cons a as ih =>
    intro fuel r
    have ha : a ≠ '\n' := hnl a (List.mem_cons_self a as)
    have hl : (a :: as).length + fuel = (as.length + fuel) + 1 := by
      simp [List.length_cons]
      omega
    rw [hl, List.cons_append]
    show subFencePairGo ((as.length + fuel) + 1) (a :: (as ++ r)) = _
    rw [subFencePairGo, if_neg ha]
    rw [ih (fun c hc => hnl c (List.mem_cons_of_mem a hc)) fuel r]
    rfl

theorem tryFenceLine_none {a : Char} {l : Str} (ha : a ≠ '`') :
    tryFenceLine (a :: l) = none := by
  unfold tryFenceLine
  rw [show startsWithL (a :: l) (strL "```") = false from startsWithL_cons_false ha]
  rfl

theorem subFenceLinesGo_false_append {pre : Str} (hnl : ∀ c ∈ pre, c ≠ '\n') :
    ∀ (fuel : Nat) (r : Str),
      subFenceLinesGo (pre.length + fuel) false (pre ++ r) =
        pre ++ subFenceLinesGo fuel false r := by
  induction pre with
  | nil => intro fuel r; simp
  | cons a as ih =>
    intro fuel r
    have ha : a ≠ '\n' := hnl a (List.mem_cons_self a as)
    have hl : (a :: as).length + fuel = (as.length + fuel) + 1 := by
      simp [List.length_cons]
      omega
    rw [hl, List.cons_append]
    show subFenceLinesGo ((as.length + fuel) + 1) false (a :: (as ++ r)) = _
    rw [subFenceLinesGo]
    rw [if_neg (by simp : ¬ (false = true)), decide_eq_false ha]
    rw [ih (fun c hc => hnl c (List.mem_cons_of_mem a hc)) fuel r]
    rfl

theorem subFenceLinesGo_true_append {pre : Str} (hnl : ∀ c ∈ pre, c ≠ '\n')
    (hbt : ∀ c ∈ pre, c ≠ '`') (hne : pre ≠ []) (fuel : Nat) (r : Str) :
    subFenceLinesGo (pre.length + fuel) true (pre ++ r) =
      pre ++ subFenceLinesGo fuel false r := by
  cases pre with
  | nil => cases hne rfl
  | cons a as =>
    have ha : a ≠ '\n' := hnl a (List.mem_cons_self a as)
    have hab : a ≠ '`' := hbt a (List.mem_cons_self a as)
    have hl : (a :: as).length + fuel = (as.length + fuel) + 1 := by
      simp [List.length_cons]
      omega
    rw [hl, List.cons_append]
    show subFenceLinesGo ((as.length + fuel) + 1) true (a :: (as ++ r)) = _
    rw [subFenceLinesGo]
    rw [if_pos rfl, tryFenceLine_none hab, decide_eq_false ha]
    rw [subFenceLinesGo_false_append (fun c hc => hnl c (List.mem_cons_of_mem a hc)) fuel r]
    rfl

theorem subTrailFence_append {pre : Str} (hnl : ∀ c ∈ pre, c ≠ '\n') (r : Str) :
    subTrailFence (pre ++ r) = pre ++ subTrailFence r := by
  induction pre with
  | nil => simp
  | cons a as ih =>
    have ha : a ≠ '\n' := hnl a (List.mem_cons_self a as)
    rw [List.cons_append, subTrailFence]
    rw [if_neg (by simp [decide_eq_false ha])]
    rw [ih (fun c hc => hnl c (List.mem_cons_of_mem a hc))]
    rfl

end Codag

namespace Codag

theorem strip_markdown_sentinel {s : Str}
    (h : startsWithL (pyUpperL (pyStripL s)) (strL "NO_LLM_WORKFLOW") = true) :
    ∃ pre r2, strip_markdown s = pre ++ r2 ∧
      pre.map upperChar = strL "NO_LLM_WORKFLOW" := by
  obtain ⟨pre, rest, ht, hmap⟩ := sentinel_decomp h
  have hfacts : ∀ c ∈ pre, isPyWs c = false ∧ c ≠ '\n' ∧ c ≠ '`' := by
    intro c hc
    have hx : upperChar c ∈ strL "NO_LLM_WORKFLOW" := by
      rw [← hmap]
      exact List.mem_map_of_mem upperChar hc
    exact sent_char_facts hx rfl
  have hws : ∀ c ∈ pre, isPyWs c = false := fun c hc => (hfacts c hc).1
  have hnl : ∀ c ∈ pre, c ≠ '\n' := fun c hc => (hfacts c hc).2.1
  have hbt : ∀ c ∈ pre, c ≠ '`' := fun c hc => (hfacts c hc).2.2
  have hlen : pre.length = 15 := by
    have := congrArg List.length hmap
    simpa using this
  have hne : pre ≠ [] := by
    intro hp
    rw [hp] at hlen
    simp at hlen
  have h1 : dropLeadFence (pyStripL s) = pre ++ rest := by
    unfold dropLeadFence
    rw [ht]
    rw [if_neg ?_]
    intro hcond
    cases pre with
    | nil => exact hne rfl
    | cons a as =>
      rw [List.cons_append] at hcond
      have hsl : startsWithL (a :: (as ++ rest)) (strL "```") = false := by
        have he : strL "```" = '`' :: strL "``" := rfl
        rw [he]
        exact startsWithL_cons_false (hbt a (List.mem_cons_self a as))
      rw [hsl] at hcond
      cases hcond
  have h2 : ∃ q2, dropTrailFence3 (pre ++ rest) = pre ++ q2 := by
    unfold dropTrailFence3
    rw [rstripL_append rest hne hws]
    by_cases hc : endsWithL (pre ++ rstripL rest) (strL "```") = true
    · rw [if_pos hc]
      obtain ⟨init, hinit⟩ := endsWithL_iff.mp hc
      have hq3 : 3 ≤ (rstripL rest).length := by
        by_contra hlt
        push_neg at hlt
        exact hbt '`' (grab_backtick hlt hinit) rfl
      have hlenq : (pre ++ rstripL rest).length - 3 =
          pre.length + ((rstripL rest).length - 3) := by
        rw [List.length_append]
        omega
      rw [hlenq, List.take_append_eq_append_take]
      rw [List.take_of_length_le (by omega)]
      have h5 : pre.length + ((rstripL rest).length - 3) - pre.length =
          (rstripL rest).length - 3 := by omega
      rw [h5]
      rw [rstripL_append _ hne hws]
      exact ⟨_, rfl⟩
    · rw [if_neg hc]
      exact ⟨rest, rfl⟩
  obtain ⟨q2, h2⟩ := h2
  have h3 : subFencePair (pre ++ q2) = pre ++ subFencePairGo q2.length q2 := by
    unfold subFencePair
    rw [List.length_append]
    exact subFencePairGo_append hnl q2.length q2
  have h4 : subFenceLines (pre ++ subFencePairGo q2.length q2) =
      pre ++ subFenceLinesGo (subFencePairGo q2.length q2).length false
        (subFencePairGo q2.length q2) := by
    unfold subFenceLines
    rw [List.length_append]
    exact subFenceLinesGo_true_append hnl hbt hne _ _
  have h5 := subTrailFence_append hnl
    (subFenceLinesGo (subFencePairGo q2.length q2).length false (subFencePairGo q2.length q2))
  refine ⟨pre, rstripL (subTrailFence (subFenceLinesGo
      (subFencePairGo q2.length q2).length false (subFencePairGo q2.length q2))), ?_, hmap⟩
  unfold strip_markdown
  rw [h1, h2, h3, h4, h5, pyStripL_append _ hne hws]

theorem isSentinelResp_of_sentinel {s : Str}
    (h : startsWithL (pyUpperL (pyStripL s)) (strL "NO_LLM_WORKFLOW") = true) :
    isSentinelResp (strip_markdown s) = true := by
  obtain ⟨pre, r2, hsm, hmap⟩ := strip_markdown_sentinel h
  have hws : ∀ c ∈ pre, isPyWs c = false := by
    intro c hc
    have hx : upperChar c ∈ strL "NO_LLM_WORKFLOW" := by
      rw [← hmap]
      exact List.mem_map_of_mem upperChar hc
    exact (sent_char_facts hx rfl).1
  have hne : pre ≠ [] := by
    intro hp
    have h0 := congrArg List.length hmap
    rw [hp] at h0
    exact absurd h0 (by decide)
  unfold isSentinelResp
  rw [hsm, pyStripL_append r2 hne hws]
  unfold pyUpperL
  rw [List.map_append, hmap]
  have hsplit : strL "NO_LLM_WORKFLOW" = strL "NO_LLM" ++ strL "_WORKFLOW" := rfl
  rw [hsplit, List.append_assoc, append_startsWithL]
  rfl

/-- Claim C2: every input whose trimmed, case-folded text begins with
the reserved sentinel token NO_LLM_WORKFLOW makes the pipeline return
the empty Graph (no nodes, edges, workflows or detected LLMs) regardless
of any trailing content, raising no error, whatever the YAML loader. -/
theorem C2_sentinel_empty (yl : Str → Except Str (Option Metadata)) (s : Str)
    (h : startsWithL (pyUpperL (pyStripL s)) (strL "NO_LLM_WORKFLOW") = true) :
    parse_mermaid_response yl s = Except.ok emptyGraph := by
  unfold parse_mermaid_response parseCleaned
  rw [isSentinelResp_of_sentinel h]
  rfl

theorem C2_sentinel_witness :
    startsWithL (pyUpperL (pyStripL (strL "  no_llm_workflow junk\nmore")))
      (strL "NO_LLM_WORKFLOW") = true ∧
    parse_mermaid_response yamlLoadModel (strL "  no_llm_workflow junk\nmore") =
      Except.ok emptyGraph :=
  ⟨by decide, C2_sentinel_empty yamlLoadModel _ (by decide)⟩

end Codag


namespace Codag

theorem containsSub_iff {h n : Str} :
    containsSub h n = true ↔ ∃ i, startsWithL (h.drop i) n = true := by
  unfold containsSub
  induction h with
  | nil =>
    constructor
    · intro hx
      rw [findSubAux] at hx
      split at hx
      · exact ⟨0, by assumption⟩
      · exact Bool.noConfusion hx
    · rintro ⟨i, hi⟩
      rw [List.drop_nil] at hi
      rw [findSubAux, if_pos hi]
      rfl
  | cons a as ih =>
    rw [findSubAux]
    split
    · rename_i hs
      exact ⟨fun _ => ⟨0, hs⟩, fun _ => rfl⟩
    · rename_i hs
      have hm : (Option.map (fun x => x + 1) (findSubAux as n)).isSome =
          (findSubAux as n).isSome := by
        cases findSubAux as n <;> rfl
      rw [hm, ih]
      constructor
      · rintro ⟨i, hi⟩
        exact ⟨i + 1, hi⟩
      · rintro ⟨i, hi⟩
        cases i with
        | zero => exact absurd hi hs
        | succ j => exact ⟨j, hi⟩

end Codag

namespace Codag

theorem containsSub_of_startsWith {t n : Str} (h : startsWithL t n = true) :
    containsSub t n = true :=
  containsSub_iff.mpr ⟨0, by rw [List.drop_zero]; exact h⟩

theorem containsSub_of_drop {l n : Str} {i : Nat} (h : containsSub (l.drop i) n = true) :
    containsSub l n = true := by
  obtain ⟨j, hj⟩ := containsSub_iff.mp h
  rw [List.drop_drop] at hj
  exact containsSub_iff.mpr ⟨i + j, hj⟩

theorem trySepMeta_contains {t : Str} {len : Nat} (h : trySepMeta t = some len) :
    containsSub t (strL "---") = true ∧ containsSub t (strL "metadata:") = true := by
  unfold trySepMeta at h
  split at h
  · rename_i h1
    dsimp only [] at h
    split at h
    · rename_i h2
      rw [Bool.and_eq_true] at h2
      constructor
      · obtain ⟨r0, hr0⟩ := startsWithL_iff.mp h1
        apply containsSub_of_drop (i := 1)
        rw [hr0]
        exact containsSub_of_startsWith
          (show startsWithL (strL "---" ++ r0) (strL "---") = true from
            append_startsWithL _ _)
      · exact containsSub_of_drop (containsSub_of_drop (containsSub_of_startsWith h2.2))
    · exact Option.noConfusion h
  · exact Option.noConfusion h

end Codag

namespace Codag

theorem findSepMetaGo_suffix :
    ∀ (fuel i : Nat) (s : Str) (p : Nat × Nat), findSepMetaGo fuel i s = some p →
      ∃ j len, trySepMeta (s.drop j) = some len := by
  intro fuel
  induction fuel with
  | zero => intro i s p h; exact Option.noConfusion h
  | succ f ih =>
    intro i s p h
    cases s with
    | nil => exact Option.noConfusion h
    | cons c rest =>
      rw [findSepMetaGo] at h
      cases htry : trySepMeta (c :: rest) with
      | some len => exact ⟨0, len, by rw [List.drop_zero]; exact htry⟩
      | none =>
        rw [htry] at h
        obtain ⟨j, len, hj⟩ := ih (i + 1) rest p h
        exact ⟨j + 1, len, by rw [show (c :: rest).drop (j + 1) = rest.drop j from rfl]; exact hj⟩

theorem findSepMeta_contains {s : Str} {p : Nat × Nat} (h : findSepMeta s = some p) :
    containsSub s (strL "---") = true ∧ containsSub s (strL "metadata:") = true := by
  obtain ⟨j, len, hj⟩ := findSepMetaGo_suffix s.length 0 s p h
  obtain ⟨h1, h2⟩ := trySepMeta_contains hj
  exact ⟨containsSub_of_drop h1, containsSub_of_drop h2⟩

end Codag

namespace Codag

/-- Claim C3 (amended): the segmentation stage raises MissingSeparator
exactly when either no separator token occurs at all, or the literal
metadata: occurs and the rule-1 pattern is absent and no separator
occurrence lies entirely before the first metadata: occurrence; the error
carries the first 200 characters of the input; and when a separator
occurs but metadata: does not occur anywhere, rule 3 splits at the last
separator occurrence without error. -/
theorem C3_amended_segmentation (s : Str) :
    ((∃ pv, segmentResponse s = .error pv) ↔
      (containsSub s (strL "---") = false ∨
        (containsSub s (strL "metadata:") = true ∧ findSepMeta s = none ∧
          pyRfindTo s (strL "---") (pyFind s (strL "metadata:")).toNat = -1))) ∧
    (∀ pv, segmentResponse s = .error pv → pv = s.take 200) ∧
    (containsSub s (strL "---") = true → containsSub s (strL "metadata:") = false →
      segmentResponse s =
        .ok (s.take (pyRfind s (strL "---")).toNat,
          s.drop ((pyRfind s (strL "---")).toNat + 3))) := by
  cases hfs : findSepMeta s with
  | some p =>
    obtain ⟨hc1, hc2⟩ := findSepMeta_contains hfs
    obtain ⟨st, en⟩ := p
    unfold segmentResponse
    rw [hfs]
    refine ⟨?_, ?_, ?_⟩
    · constructor
      · rintro ⟨pv, hpv⟩
        exact Except.noConfusion hpv
      · rintro (hl | ⟨_, hmid, _⟩)
        · rw [hc1] at hl
          exact Bool.noConfusion hl
        · exact Option.noConfusion hmid
    · intro pv hpv
      exact Except.noConfusion hpv
    · intro _ hm
      rw [hc2] at hm
      exact Bool.noConfusion hm
  | none =>
    unfold segmentResponse
    rw [hfs]
    dsimp only []
    by_cases hdash : containsSub s (strL "---") = true
    · by_cases hmeta : containsSub s (strL "metadata:") = true
      · have hcond : (containsSub s (strL "---") && containsSub s (strL "metadata:")) = true := by
          rw [hdash, hmeta]
          rfl
        rw [if_pos hcond]
        by_cases hsep : pyRfindTo s (strL "---") (pyFind s (strL "metadata:")).toNat = -1
        · rw [if_neg (by simpa using hsep)]
          refine ⟨?_, ?_, ?_⟩
          · exact ⟨fun _ => Or.inr ⟨hmeta, rfl, hsep⟩, fun _ => ⟨_, rfl⟩⟩
          · intro pv hpv
            cases hpv
            rfl
          · intro _ hm
            rw [hmeta] at hm
            exact Bool.noConfusion hm
        · rw [if_pos (by simpa using hsep)]
          refine ⟨?_, ?_, ?_⟩
          · constructor
            · rintro ⟨pv, hpv⟩
              exact Except.noConfusion hpv
            · rintro (hl | ⟨_, _, hmid⟩)
              · rw [hdash] at hl
                exact Bool.noConfusion hl
              · exact absurd hmid hsep
          · intro pv hpv
            exact Except.noConfusion hpv
          · intro _ hm
            rw [hmeta] at hm
            exact Bool.noConfusion hm
      · have hcond : (containsSub s (strL "---") && containsSub s (strL "metadata:")) = false := by
          rw [eq_false_of_ne_true hmeta]
          simp
        rw [if_neg (by rw [hcond]; exact Bool.noConfusion), if_pos hdash]
        refine ⟨?_, ?_, ?_⟩
        · constructor
          · rintro ⟨pv, hpv⟩
            exact Except.noConfusion hpv
          · rintro (hl | ⟨hm, _, _⟩)
            · rw [hdash] at hl
              exact Bool.noConfusion hl
            · exact absurd hm hmeta
        · intro pv hpv
          exact Except.noConfusion hpv
        · intro _ _
          rfl
    · have hdf : containsSub s (strL "---") = false := eq_false_of_ne_true hdash
      have hcond : (containsSub s (strL "---") && containsSub s (strL "metadata:")) = false := by
        rw [hdf]
        simp
      rw [if_neg (by rw [hcond]; exact Bool.noConfusion), if_neg (by rw [hdf]; exact Bool.noConfusion)]
      refine ⟨?_, ?_, ?_⟩
      · exact ⟨fun _ => Or.inl hdf, fun _ => ⟨_, rfl⟩⟩
      · intro pv hpv
        cases hpv
        rfl
      · intro hd _
        rw [hdf] at hd
        exact Bool.noConfusion hd

end Codag

namespace Codag

/-- Claim C3 counterexample: the input consisting of metadata: x and a
separator after it contains a separator token, yet the code raises
MissingSeparator, contradicting the claim that an error is raised only
when no separator occurs anywhere. -/
theorem C3_counterexample :
    containsSub (strL "metadata: x\n---") (strL "---") = true ∧
    parse_mermaid_response yamlLoadModel (strL "metadata: x\n---") =
      Except.error (PipeError.missingSeparator (strL "metadata: x\n---")) := by
  decide

theorem C3_witness :
    (∃ pv, segmentResponse (strL "no separator here") = Except.error pv) ∧
    segmentResponse (strL "a --- b") =
      Except.ok ((strL "a --- b").take (pyRfind (strL "a --- b") (strL "---")).toNat,
        (strL "a --- b").drop ((pyRfind (strL "a --- b") (strL "---")).toNat + 3)) :=
  ⟨(C3_amended_segmentation (strL "no separator here")).1.mpr (Or.inl (by decide)),
   (C3_amended_segmentation (strL "a --- b")).2.2 (by decide) (by decide)⟩

end Codag

namespace Codag

theorem validateEdges_foldl (ns : List GraphNode) :
    ∀ (raw : List (Str × Str × Option Str)) (es : List GraphEdge) (cbt : List Str)
      (sk : List (Str × Str)),
      raw.foldl
        (fun acc r =>
          let (es, cbt, sk) := acc
          if ns.any (fun n => n.id == r.1) then
            (es ++ [⟨r.1, r.2.1, r.2.2⟩],
             if ns.any (fun n => n.id == r.2.1) then cbt else cbt ++ [r.2.1],
             sk)
          else (es, cbt, sk ++ [(r.1, r.2.1)]))
        (es, cbt, sk) =
      (es ++ raw.filterMap (fun r =>
          if ns.any (fun n => n.id == r.1) then
            some (⟨r.1, r.2.1, r.2.2⟩ : GraphEdge) else none),
       cbt ++ raw.filterMap (fun r =>
          if ns.any (fun n => n.id == r.1) && !(ns.any (fun n => n.id == r.2.1)) then
            some r.2.1 else none),
       sk ++ raw.filterMap (fun r =>
          if ns.any (fun n => n.id == r.1) then none else some (r.1, r.2.1))) := by
  intro raw
  induction raw with
  | nil => intro es cbt sk; simp
  | cons r rest ih =>
    intro es cbt sk
    rw [List.foldl_cons, List.filterMap_cons, List.filterMap_cons, List.filterMap_cons]
    by_cases hsrc : ns.any (fun n => n.id == r.1) = true
    · by_cases htgt : ns.any (fun n => n.id == r.2.1) = true
      · have h2 : (ns.any (fun n => n.id == r.1) && !(ns.any (fun n => n.id == r.2.1))) = false := by
          rw [hsrc, htgt]
          rfl
        rw [h2, hsrc, htgt]
        dsimp only []
        rw [ih]
        simp
      · have htgtf : ns.any (fun n => n.id == r.2.1) = false := eq_false_of_ne_true htgt
        have h2 : (ns.any (fun n => n.id == r.1) && !(ns.any (fun n => n.id == r.2.1))) = true := by
          rw [hsrc, htgtf]
          rfl
        rw [h2, hsrc, htgtf]
        dsimp only []
        rw [ih]
        simp
    · have hsrcf : ns.any (fun n => n.id == r.1) = false := eq_false_of_ne_true hsrc
      have h2 : (ns.any (fun n => n.id == r.1) && !(ns.any (fun n => n.id == r.2.1))) = false := by
        rw [hsrcf]
        rfl
      rw [h2, hsrcf]
      dsimp only []
      rw [ih]
      simp

end Codag

namespace Codag

theorem validateEdges_spec (ns : List GraphNode) (raw : List (Str × Str × Option Str)) :
    validateEdges ns raw =
      (raw.filterMap (fun r =>
          if ns.any (fun n => n.id == r.1) then
            some (⟨r.1, r.2.1, r.2.2⟩ : GraphEdge) else none),
       raw.filterMap (fun r =>
          if ns.any (fun n => n.id == r.1) && !(ns.any (fun n => n.id == r.2.1)) then
            some r.2.1 else none),
       raw.filterMap (fun r =>
          if ns.any (fun n => n.id == r.1) then none else some (r.1, r.2.1))) := by
  unfold validateEdges
  rw [validateEdges_foldl]
  simp

/-- Claim C4 (amended): edge validation is per diagram block.  Within a
block, a parsed edge is retained exactly when its source id is defined in
that same block, in which case a target id absent from that block is
collected into the cross-batch (pending external targets) diagnostic; an
edge whose source id is not defined in its own block is dropped into the
skipped-edges diagnostic, and every retained edge has its source among
the block nodes. -/
theorem C4_amended_per_block (lines : List Str) (md : Metadata) :
    ((parse_flowchart lines md).edges =
      (rawEdgesOf lines).filterMap (fun r =>
        if (parse_flowchart lines md).nodes.any (fun n => n.id == r.1) then
          some (⟨r.1, r.2.1, r.2.2⟩ : GraphEdge) else none)) ∧
    ((parse_flowchart lines md).crossBatchTargets =
      (rawEdgesOf lines).filterMap (fun r =>
        if (parse_flowchart lines md).nodes.any (fun n => n.id == r.1) &&
            !((parse_flowchart lines md).nodes.any (fun n => n.id == r.2.1)) then
          some r.2.1 else none)) ∧
    ((parse_flowchart lines md).skippedEdges =
      (rawEdgesOf lines).filterMap (fun r =>
        if (parse_flowchart lines md).nodes.any (fun n => n.id == r.1) then none
        else some (r.1, r.2.1))) ∧
    (∀ e ∈ (parse_flowchart lines md).edges,
      (parse_flowchart lines md).nodes.any (fun n => n.id == e.source) = true) := by
  have hpf : parse_flowchart lines md =
      { nodes := (scanLines lines [] []).1.map (enrichNode md),
        edges := (validateEdges ((scanLines lines [] []).1.map (enrichNode md))
          (scanLines lines [] []).2).1,
        crossBatchTargets := (validateEdges ((scanLines lines [] []).1.map (enrichNode md))
          (scanLines lines [] []).2).2.1,
        skippedEdges := (validateEdges ((scanLines lines [] []).1.map (enrichNode md))
          (scanLines lines [] []).2).2.2,
        normalizedTypes := normTypeDiag md (scanLines lines [] []).1,
        nodesWithoutSource := ((scanLines lines [] []).1.map (enrichNode md)).filterMap
          (fun n => if n.source = none then some n.id else none) } := rfl
  have hraw : rawEdgesOf lines = (scanLines lines [] []).2 := rfl
  rw [hpf, hraw]
  dsimp only []
  rw [validateEdges_spec]
  dsimp only []
  refine ⟨rfl, rfl, rfl, ?_⟩
  intro e he
  obtain ⟨r, hr, hfr⟩ := List.mem_filterMap.mp he
  by_cases hc : ((scanLines lines [] []).1.map (enrichNode md)).any (fun n => n.id == r.1) = true
  · rw [if_pos hc] at hfr
    cases hfr
    exact hc
  · rw [if_neg hc] at hfr
    exact Option.noConfusion hfr

end Codag

namespace Codag

/-- Claim C4 counterexample: with two diagram blocks, the edge A to B of
the second block parses and its source A is in the assembled node set
(defined by the first block), yet the output has no edges; the same edge
line inside a single block is retained. -/
theorem C4_counterexample :
    ((parse_mermaid_response yamlLoadModel
        (strL "flowchart TD\nA[x]\nflowchart TD\nA --> B\n\n---\nmetadata:\n")).toOption.map
        (fun g => (g.nodes.map (·.id), g.edges))) = some ([strL "A"], []) ∧
    ((parse_mermaid_response yamlLoadModel
        (strL "flowchart TD\nA[x]\nA --> B\n\n---\nmetadata:\n")).toOption.map
        (fun g => g.edges)) = some [⟨strL "A", strL "B", none⟩] := by
  decide

theorem C4_witness :
    (parse_flowchart [strL "A[x]", strL "A --> B"] []).edges =
      (rawEdgesOf [strL "A[x]", strL "A --> B"]).filterMap (fun r =>
        if (parse_flowchart [strL "A[x]", strL "A --> B"] []).nodes.any
            (fun n => n.id == r.1) then
          some (⟨r.1, r.2.1, r.2.2⟩ : GraphEdge) else none) ∧
    (parse_flowchart [strL "A[x]", strL "A --> B"] []).nodes.any
      (fun n => n.id == (⟨strL "A", strL "B", none⟩ : GraphEdge).source) = true :=
  ⟨(C4_amended_per_block [strL "A[x]", strL "A --> B"] []).1,
   (C4_amended_per_block [strL "A[x]", strL "A --> B"] []).2.2.2
     ⟨strL "A", strL "B", none⟩ (by decide)⟩

end Codag

namespace Codag

theorem findNode_insertNode {ns : List GraphNode} {id : Str} {nd : GraphNode}
    (h : findNode ns id = some nd) (i l t : Str) :
    findNode (insertNode ns i l t) id = some nd := by
  unfold insertNode
  split
  · exact h
  · unfold findNode at h ⊢
    rw [List.find?_append, h]
    rfl

theorem findNode_addMatches {id : Str} {nd : GraphNode} (t : Str) :
    ∀ (ms : List (Str × Str)) (ns : List GraphNode), findNode ns id = some nd →
      findNode (addMatches t ms ns) id = some nd := by
  intro ms
  induction ms with
  | nil => intro ns h; exact h
  | cons m rest ih =>
    intro ns h
    obtain ⟨mi, ml⟩ := m
    rw [addMatches]
    exact ih _ (findNode_insertNode h mi ml t)

theorem findNode_collectLine {id : Str} {nd : GraphNode} {ns : List GraphNode}
    (h : findNode ns id = some nd) (line : Str) :
    findNode (collectLineNodes ns line) id = some nd := by
  unfold collectLineNodes
  exact findNode_addMatches _ _ _ (findNode_addMatches _ _ _ (findNode_addMatches _ _ _
    (findNode_addMatches _ _ _ (findNode_addMatches _ _ _ h))))

theorem scanLines_append :
    ∀ (l1 l2 : List Str) (ns : List GraphNode) (es : List (Str × Str × Option Str)),
      scanLines (l1 ++ l2) ns es =
        scanLines l2 (scanLines l1 ns es).1 (scanLines l1 ns es).2 := by
  intro l1
  induction l1 with
  | nil => intro l2 ns es; rfl
  | cons l rest ih =>
    intro l2 ns es
    rw [List.cons_append, scanLines, scanLines, ih]

theorem findNode_scanLines {id : Str} {nd : GraphNode} :
    ∀ (lines : List Str) (ns : List GraphNode) (es : List (Str × Str × Option Str)),
      findNode ns id = some nd → findNode (scanLines lines ns es).1 id = some nd := by
  intro lines
  induction lines with
  | nil => intro ns es h; exact h
  | cons l rest ih =>
    intro ns es h
    rw [scanLines]
    exact ih _ _ (findNode_collectLine h l)

end Codag

namespace Codag

/-- Claim C5 (amended): per block, node definitions are collected line
by line and, within a line, by the five shape patterns in fixed priority
order (subroutine, stadium, curly, square, round); for each identifier
the first match in this scan order fixes its type and label and later
matches never redefine them.  Hence an identifier matched as a square
bracket shape on an earlier line keeps type step and its label despite a
later curly reference, while on a single line the curly pattern takes
priority over the square one regardless of textual position. -/
theorem C5_amended_first_in_scan_order :
    (∀ (lines extra : List Str) (id : Str) (nd : GraphNode),
      findNode (collectNodes lines) id = some nd →
        findNode (collectNodes (lines ++ extra)) id = some nd) ∧
    (parse_flowchart [strL "A[Label]", strL "A\x7bOther\x7d"] []).nodes =
      [⟨strL "A", strL "Label", strL "step", none, none, none⟩] ∧
    (parse_flowchart [strL "A[Label] A\x7bOther\x7d"] []).nodes =
      [⟨strL "A", strL "Other", strL "decision", none, none, none⟩] := by
  refine ⟨?_, by decide, by decide⟩
  intro lines extra id nd h
  unfold collectNodes at h ⊢
  rw [scanLines_append]
  exact findNode_scanLines _ _ _ h

/-- Claim C5 counterexample: in the one-line block where A[Label] occurs
at position 0 and the curly reference of A occurs later at position 9,
the node keeps type decision and the later label, because the curly
pattern is scanned before the square one within a line; the claim
predicted type step and label Label. -/
theorem C5_counterexample :
    (parse_flowchart [strL "A[Label] A\x7bOther\x7d"] []).nodes.map
        (fun n => (n.id, n.type, n.label)) =
      [(strL "A", strL "decision", strL "Other")] ∧
    pyFind (strL "A[Label] A\x7bOther\x7d") (strL "A[Label]") = 0 ∧
    pyFind (strL "A[Label] A\x7bOther\x7d") (strL "A\x7bOther\x7d") = 9 := by
  decide

theorem C5_witness :
    findNode (collectNodes [strL "A[Label]"]) (strL "A") =
      some ⟨strL "A", strL "Label", strL "step", none, none, none⟩ ∧
    findNode (collectNodes ([strL "A[Label]"] ++ [strL "A\x7bOther\x7d"])) (strL "A") =
      some ⟨strL "A", strL "Label", strL "step", none, none, none⟩ :=
  ⟨by decide, (C5_amended_first_in_scan_order).1 [strL "A[Label]"] [strL "A\x7bOther\x7d"] (strL "A") _ (by decide)⟩

end Codag

namespace Codag

/-- Invariant carried by freshly collected nodes. -/
def freshNode (n : GraphNode) : Prop :=
  (n.type = strL "step" ∨ n.type = strL "llm" ∨ n.type = strL "decision") ∧
    n.source = none ∧ n.model = none ∧ n.description = none

theorem insertNode_inv {ns : List GraphNode} {i l t : Str}
    (hns : ∀ n ∈ ns, freshNode n)
    (ht : t = strL "step" ∨ t = strL "llm" ∨ t = strL "decision") :
    ∀ n ∈ insertNode ns i l t, freshNode n := by
  intro n hn
  unfold insertNode at hn
  split at hn
  · exact hns n hn
  · rcases List.mem_append.mp hn with h | h
    · exact hns n h
    · rcases List.mem_singleton.mp h with rfl
      exact ⟨ht, rfl, rfl, rfl⟩

theorem addMatches_inv {t : Str}
    (ht : t = strL "step" ∨ t = strL "llm" ∨ t = strL "decision") :
    ∀ (ms : List (Str × Str)) (ns : List GraphNode), (∀ n ∈ ns, freshNode n) →
      ∀ n ∈ addMatches t ms ns, freshNode n := by
  intro ms
  induction ms with
  | nil => intro ns h; exact h
  | cons m rest ih =>
    intro ns h
    obtain ⟨mi, ml⟩ := m
    rw [addMatches]
    exact ih _ (insertNode_inv h ht)

theorem collectLineNodes_inv {ns : List GraphNode} (h : ∀ n ∈ ns, freshNode n)
    (line : Str) : ∀ n ∈ collectLineNodes ns line, freshNode n := by
  unfold collectLineNodes
  exact addMatches_inv (Or.inl rfl) _ _ (addMatches_inv (Or.inl rfl) _ _
    (addMatches_inv (Or.inr (Or.inr rfl)) _ _ (addMatches_inv (Or.inr (Or.inl rfl)) _ _
      (addMatches_inv (Or.inl rfl) _ _ h))))

theorem scanLines_nodes_inv :
    ∀ (lines : List Str) (ns : List GraphNode) (es : List (Str × Str × Option Str)),
      (∀ n ∈ ns, freshNode n) → ∀ n ∈ (scanLines lines ns es).1, freshNode n := by
  intro lines
  induction lines with
  | nil => intro ns es h; exact h
  | cons l rest ih =>
    intro ns es h
    rw [scanLines]
    exact ih _ _ (collectLineNodes_inv h l)

theorem collectNodes_inv (lines : List Str) : ∀ n ∈ collectNodes lines, freshNode n :=
  scanLines_nodes_inv lines [] [] (fun _ h => absurd h (List.not_mem_nil _))

theorem mem_validTypes {t : Str} (h : validTypes.contains t = true) :
    t = strL "step" ∨ t = strL "llm" ∨ t = strL "decision" := by
  unfold validTypes at h
  simp only [List.contains_cons, List.contains_nil, Bool.or_eq_true, beq_iff_eq] at h
  rcases h with h | h | h | h
  · exact Or.inl h
  · exact Or.inr (Or.inl h)
  · exact Or.inr (Or.inr h)
  · exact Bool.noConfusion h

end Codag

namespace Codag

theorem enrichNode_type (md : Metadata) (n : GraphNode) :
    (enrichNode md n).type = n.type ∨
      (enrichNode md n).type = strL "step" ∨ (enrichNode md n).type = strL "llm" ∨
      (enrichNode md n).type = strL "decision" := by
  unfold enrichNode
  dsimp only []
  repeat' split
  all_goals try dsimp only []
  all_goals first
    | exact Or.inl rfl
    | exact Or.inr (Or.inl rfl)
    | (rcases mem_validTypes (by assumption) with h | h | h
       · exact Or.inr (Or.inl h)
       · exact Or.inr (Or.inr (Or.inl h))
       · exact Or.inr (Or.inr (Or.inr h)))

end Codag

namespace Codag

/-- Claim C6: in every Graph the pipeline returns, every node type is
step, llm or decision; a metadata type outside this set is normalized to
step with a normalization diagnostic, and no input is rejected for an
invalid type value (parse_flowchart is total and the theorem holds for
all inputs and metadata). -/
theorem C6_type_invariant :
    (∀ (lines : List Str) (md : Metadata), ∀ n ∈ (parse_flowchart lines md).nodes,
      n.type = strL "step" ∨ n.type = strL "llm" ∨ n.type = strL "decision") ∧
    (parse_flowchart [strL "A[x]"]
        [(strL "A", .mapping { type := some (strL "integration") })]).nodes.map (·.type) =
      [strL "step"] ∧
    (parse_flowchart [strL "A[x]"]
        [(strL "A", .mapping { type := some (strL "integration") })]).normalizedTypes =
      [(strL "A", strL "integration")] := by
  refine ⟨?_, by decide, by decide⟩
  intro lines md n hn
  have hpf : (parse_flowchart lines md).nodes =
      (scanLines lines [] []).1.map (enrichNode md) := rfl
  rw [hpf] at hn
  obtain ⟨n0, hn0, rfl⟩ := List.mem_map.mp hn
  have hf := (collectNodes_inv lines n0 hn0).1
  rcases enrichNode_type md n0 with h | h
  · rw [h]
    exact hf
  · exact h

theorem C6_witness :
    (⟨strL "A", strL "x", strL "step", none, none, none⟩ : GraphNode).type = strL "step" ∨
    (⟨strL "A", strL "x", strL "step", none, none, none⟩ : GraphNode).type = strL "llm" ∨
    (⟨strL "A", strL "x", strL "step", none, none, none⟩ : GraphNode).type = strL "decision" :=
  C6_type_invariant.1 [strL "A[x]"] [] ⟨strL "A", strL "x", strL "step", none, none, none⟩ (by decide)

end Codag

namespace Codag

/-- Claim C7: the pipeline returns InvalidMetadataBody exactly when the
earlier stages succeeded (no sentinel, segmentation ok) and the YAML
loader fails on the cleaned metadata section; the error carries the
first 200 characters of that section, and no other stage produces this
error. -/
theorem C7_invalid_metadata_iff (yl : Str → Except Str (Option Metadata)) (s : Str) (emsg pv : Str) :
    parse_mermaid_response yl s = .error (.invalidMetadataBody emsg pv) ↔
      ∃ m, metaPartOf s = some m ∧ yl m = .error emsg ∧ pv = m.take 200 := by
  unfold parse_mermaid_response parseCleaned metaPartOf segmentedOf
  dsimp only []
  by_cases hs : isSentinelResp (strip_markdown s) = true
  · rw [if_pos hs, if_pos hs]
    constructor
    · intro h
      exact Except.noConfusion h
    · rintro ⟨m, hm, _⟩
      exact Option.noConfusion hm
  · rw [if_neg hs, if_neg hs]
    cases hseg : segmentResponse (strip_markdown s) with
    | error pv2 =>
      dsimp only []
      constructor
      · intro h
        exact PipeError.noConfusion (Except.error.inj h)
      · rintro ⟨m, hm, _⟩
        exact Option.noConfusion hm
    | ok p =>
      obtain ⟨dp, mp0⟩ := p
      dsimp only []
      simp only [Option.map_some']
      generalize hM : cleanupMetadata mp0 = M
      cases hyl : yl M with
      | error e =>
        dsimp only []
        constructor
        · intro h
          obtain ⟨he, hpv⟩ := PipeError.invalidMetadataBody.inj (Except.error.inj h)
          exact ⟨M, rfl, by rw [hyl, he], hpv.symm⟩
        · rintro ⟨m, hm, hyl2, hpv⟩
          have hm2 := Option.some.inj hm
          rw [← hm2] at hyl2
          rw [hyl] at hyl2
          have he := Except.error.inj hyl2
          rw [he, hpv, hm2]
      | ok m2 =>
        dsimp only []
        constructor
        · intro h
          exact Except.noConfusion h
        · rintro ⟨m, hm, hyl2, hpv2⟩
          have hm2 := Option.some.inj hm
          rw [← hm2] at hyl2
          rw [hyl] at hyl2
          exact Except.noConfusion hyl2

end Codag

namespace Codag

theorem C7_witness :
    ∃ m, metaPartOf (strL "flowchart TD\nA[x]\n\n---\nmetadata:\n%%%bad") = some m ∧
      yamlLoadModel m = .error (strL "document is not a mapping") ∧
      (strL "%%%bad") = m.take 200 :=
  (C7_invalid_metadata_iff yamlLoadModel (strL "flowchart TD\nA[x]\n\n---\nmetadata:\n%%%bad")
    (strL "document is not a mapping") (strL "%%%bad")).mp (by decide)

end Codag

namespace Codag

theorem enrichNode_id (md : Metadata) (n : GraphNode) : (enrichNode md n).id = n.id := by
  unfold enrichNode
  dsimp only []
  repeat' split
  all_goals rfl

theorem pySplit_single {s sep : Str} (h : containsSub s sep = false) :
    pySplit s sep = [s] := by
  unfold pySplit
  unfold containsSub at h
  cases hl : s.length with
  | zero => rw [splitOnSub]
  | succ k =>
    rw [splitOnSub]
    cases hf : findSubAux s sep with
    | none => rfl
    | some i =>
      rw [hf] at h
      exact Bool.noConfusion h
end Codag

namespace Codag

/-- Claim C8: for every node with no metadata override whose identifier
splits on the reserved separator into path::function or
path::function::line, a SourceLocation is synthesized with that file and
function, the line taken from the third segment when it is a digit
string and 0 when the segment is missing or non-numeric. -/
theorem C8_source_inference (lines : List Str) (md : Metadata) :
    ∀ n ∈ (parse_flowchart lines md).nodes, lookupMeta md n.id = none →
      (∀ p f, pySplit n.id (strL "::") = [p, f] →
        n.source = some ⟨p, 0, some f⟩) ∧
      (∀ p f l, pySplit n.id (strL "::") = [p, f, l] →
        n.source = some ⟨p, (if pyIsDigit l then (strToNat l : Int) else 0), some f⟩) := by
  intro n hn hlk
  have hpf : (parse_flowchart lines md).nodes =
      (scanLines lines [] []).1.map (enrichNode md) := rfl
  rw [hpf] at hn
  obtain ⟨n0, hn0, rfl⟩ := List.mem_map.mp hn
  have hid : (enrichNode md n0).id = n0.id := enrichNode_id md n0
  rw [hid] at hlk ⊢
  have hfresh := collectNodes_inv lines n0 hn0
  have hsrc0 : n0.source = none := hfresh.2.1
  constructor
  · intro p f hsplit
    have hcont : containsSub n0.id (strL "::") = true := by
      by_contra hc
      have := pySplit_single (eq_false_of_ne_true hc)
      rw [hsplit] at this
      exact List.noConfusion (List.cons.inj this).2
    show (enrichNode md n0).source = _
    unfold enrichNode
    rw [hlk]
    dsimp only []
    rw [hsrc0]
    rw [if_pos (by rw [hcont]; rfl)]
    rw [hsplit]
    rfl
  · intro p f l hsplit
    have hcont : containsSub n0.id (strL "::") = true := by
      by_contra hc
      have := pySplit_single (eq_false_of_ne_true hc)
      rw [hsplit] at this
      exact List.noConfusion (List.cons.inj this).2
    show (enrichNode md n0).source = _
    unfold enrichNode
    rw [hlk]
    dsimp only []
    rw [hsrc0]
    rw [if_pos (by rw [hcont]; rfl)]
    rw [hsplit]
    rfl

end Codag

namespace Codag

theorem C8_witness :
    (⟨strL "pkg/file.py::handler::42", strL "X", strL "step", none,
      some ⟨strL "pkg/file.py", 42, some (strL "handler")⟩, none⟩ : GraphNode).source =
      some ⟨strL "pkg/file.py",
        (if pyIsDigit (strL "42") then (strToNat (strL "42") : Int) else 0),
        some (strL "handler")⟩ :=
  (C8_source_inference [strL "pkg/file.py::handler::42[X]"] []
    ⟨strL "pkg/file.py::handler::42", strL "X", strL "step", none,
      some ⟨strL "pkg/file.py", 42, some (strL "handler")⟩, none⟩
    (by decide) (by decide)).2 (strL "pkg/file.py") (strL "handler") (strL "42") (by decide)

end Codag

namespace Codag

theorem assembleStep_wmeta (md : Metadata)
    (acc : List GraphNode × List GraphEdge × List WorkflowMetadata) (wf : Str × List Str) :
    (assembleStep md acc wf).2.2 =
      acc.2.2 ++ (if (parse_flowchart wf.2 md).nodes.map (fun n => n.id) ≠ [] then
        [⟨strL "workflow_" ++ sanitize_id wf.1, wf.1,
          (parse_flowchart wf.2 md).nodes.map (fun n => n.id)⟩] else []) := by
  obtain ⟨ns, es, ws⟩ := acc
  unfold assembleStep
  dsimp only []
  split
  · rfl
  · exact (List.append_nil _).symm

theorem foldl_assembleStep_wmeta (md : Metadata) :
    ∀ (wfs : List (Str × List Str)) (acc : List GraphNode × List GraphEdge × List WorkflowMetadata),
    (wfs.foldl (assembleStep md) acc).2.2 =
      acc.2.2 ++ wfs.filterMap (fun wf =>
        if (parse_flowchart wf.2 md).nodes.map (fun n => n.id) ≠ [] then
          some ⟨strL "workflow_" ++ sanitize_id wf.1, wf.1,
            (parse_flowchart wf.2 md).nodes.map (fun n => n.id)⟩
        else none)
  | [], acc => by simp
  | wf :: wfs, acc => by
    rw [List.foldl_cons, foldl_assembleStep_wmeta md wfs, assembleStep_wmeta,
      List.filterMap_cons]
    by_cases h : (parse_flowchart wf.2 md).nodes.map (fun n => n.id) ≠ []
    · rw [if_pos h, if_pos h, List.append_assoc]
      rfl
    · rw [if_neg h, if_neg h, List.append_nil]

theorem assemble_workflows_eq (dp : Str) (md : Metadata) :
    (assembleResponse dp md).workflows = (parse_workflows dp).filterMap (fun wf =>
      if (parse_flowchart wf.2 md).nodes.map (fun n => n.id) ≠ [] then
        some ⟨strL "workflow_" ++ sanitize_id wf.1, wf.1,
          (parse_flowchart wf.2 md).nodes.map (fun n => n.id)⟩
      else none) := by
  unfold assembleResponse
  dsimp only []
  rw [foldl_assembleStep_wmeta]
  rfl

/-- Claim C9 counterexample: a response whose diagram part holds two
blocks (Demo! with a node, Other with only an edge between undeclared
identifiers) yields exactly one workflow, not one per block, and its id
is workflow_demo: the workflow_ prefix and the underscore stripping of
sanitize_id both depart from the spec formula, which maps the name Demo!
to demo_. -/
theorem C9_counterexample :
    (parse_workflows (diagramPartOf twoBlockResponse)).length = 2 ∧
    (parse_mermaid_response yamlLoadModel twoBlockResponse).toOption.map
      (fun g => g.workflows.map (fun w => (w.id, w.name))) =
      some [(strL "workflow_demo", strL "Demo!")] ∧
    specWorkflowId (strL "Demo!") = strL "demo_" ∧
    sanitize_id (strL "Demo!") = strL "demo" := by
  decide

/-- Claim C9 (amended): a workflow record is emitted exactly for each
diagram block whose parse yields at least one node, carrying that
block's display name and the node ids of the block; its id is the name
sanitized by sanitize_id (lowercase, characters outside a-z, 0-9 and
underscore replaced by underscore, then leading and trailing underscores
stripped) with the prefix workflow_ prepended; consequently in every
graph the pipeline returns, every workflow id equals workflow_ followed
by the sanitized name. -/
theorem C9_amended_workflow_id :
    (∀ (dp : Str) (md : Metadata),
      (assembleResponse dp md).workflows = (parse_workflows dp).filterMap (fun wf =>
        if (parse_flowchart wf.2 md).nodes.map (fun n => n.id) ≠ [] then
          some ⟨strL "workflow_" ++ sanitize_id wf.1, wf.1,
            (parse_flowchart wf.2 md).nodes.map (fun n => n.id)⟩
        else none)) ∧
    (∀ (yl : Str → Except Str (Option Metadata)) (s : Str) (g : WorkflowGraph),
      parse_mermaid_response yl s = Except.ok g →
        ∀ w ∈ g.workflows, w.id = strL "workflow_" ++ sanitize_id w.name) := by
  refine ⟨assemble_workflows_eq, ?_⟩
  intro yl s g hg w hw
  unfold parse_mermaid_response parseCleaned at hg
  split at hg
  · cases Except.ok.inj hg
    cases hw
  · split at hg
    · exact Except.noConfusion hg
    · split at hg
      · exact Except.noConfusion hg
      · cases Except.ok.inj hg
        rw [assemble_workflows_eq] at hw
        obtain ⟨wf, hmem, hwf⟩ := List.mem_filterMap.mp hw
        split at hwf
        · cases Option.some.inj hwf
          rfl
        · exact Option.noConfusion hwf

theorem C9_witness :
    parse_mermaid_response yamlLoadModel exampleResponse = Except.ok exampleGraph ∧
    (WorkflowMetadata.mk (strL "workflow_demo") (strL "Demo")
        [strL "B", strL "A", strL "C", strL "D"]).id =
      strL "workflow_" ++ sanitize_id (WorkflowMetadata.mk (strL "workflow_demo")
        (strL "Demo") [strL "B", strL "A", strL "C", strL "D"]).name :=
  ⟨by decide, C9_amended_workflow_id.2 yamlLoadModel exampleResponse exampleGraph (by decide)
    _ (by decide)⟩

end Codag

namespace Codag

theorem enrichNode_model_desc (md : Metadata) (n : GraphNode)
    (h : lookupMeta md n.id = none) :
    (enrichNode md n).model = n.model ∧ (enrichNode md n).description = n.description := by
  unfold enrichNode
  rw [h]
  dsimp only []
  repeat' split
  all_goals exact ⟨rfl, rfl⟩

theorem dedupFold_inv (P : GraphNode → Prop) :
    ∀ (new ns : List GraphNode), (∀ n ∈ ns, P n) → (∀ n ∈ new, P n) →
      ∀ n ∈ new.foldl
        (fun ns n => if ns.any (fun m => m.id == n.id) then ns else ns ++ [n]) ns, P n := by
  intro new
  induction new with
  | nil => intro ns hns _ n hn; exact hns n hn
  | cons m rest ih =>
    intro ns hns hnew
    rw [List.foldl_cons]
    apply ih
    · intro n hn
      by_cases hc : ns.any (fun m2 => m2.id == m.id) = true
      · rw [if_pos hc] at hn
        exact hns n hn
      · rw [if_neg hc] at hn
        rcases List.mem_append.mp hn with h | h
        · exact hns n h
        · rcases List.mem_singleton.mp h with rfl
          exact hnew _ (List.mem_cons_self _ _)
    · intro n hn
      exact hnew n (List.mem_cons_of_mem _ hn)

theorem assembleStep_nodes_inv (md : Metadata) (P : GraphNode → Prop)
    (hP : ∀ (lines : List Str), ∀ n ∈ (parse_flowchart lines md).nodes, P n)
    (acc : List GraphNode × List GraphEdge × List WorkflowMetadata) (wf : Str × List Str)
    (hacc : ∀ n ∈ acc.1, P n) : ∀ n ∈ (assembleStep md acc wf).1, P n := by
  obtain ⟨ns, es, ws⟩ := acc
  unfold assembleStep
  dsimp only []
  exact dedupFold_inv P _ _ hacc (hP wf.2)

theorem foldl_assembleStep_nodes_inv (md : Metadata) (P : GraphNode → Prop)
    (hP : ∀ (lines : List Str), ∀ n ∈ (parse_flowchart lines md).nodes, P n) :
    ∀ (wfs : List (Str × List Str))
      (acc : List GraphNode × List GraphEdge × List WorkflowMetadata),
      (∀ n ∈ acc.1, P n) → ∀ n ∈ (wfs.foldl (assembleStep md) acc).1, P n := by
  intro wfs
  induction wfs with
  | nil => intro acc h; exact h
  | cons wf rest ih =>
    intro acc h
    rw [List.foldl_cons]
    exact ih _ (assembleStep_nodes_inv md P hP acc wf h)

theorem parse_flowchart_no_md (lines : List Str) :
    ∀ n ∈ (parse_flowchart lines []).nodes, n.model = none ∧ n.description = none := by
  intro n hn
  have hpf : (parse_flowchart lines ([] : Metadata)).nodes =
      (scanLines lines [] []).1.map (enrichNode []) := rfl
  rw [hpf] at hn
  obtain ⟨n0, hn0, rfl⟩ := List.mem_map.mp hn
  have hf := collectNodes_inv lines n0 hn0
  obtain ⟨hm, hd⟩ := enrichNode_model_desc [] n0 rfl
  exact ⟨hm.trans hf.2.2.1, hd.trans hf.2.2.2⟩

theorem assemble_nodes_no_md (dp : Str) :
    ∀ n ∈ (assembleResponse dp []).nodes, n.model = none ∧ n.description = none := by
  intro n hn
  have h : (assembleResponse dp ([] : Metadata)).nodes =
      ((parse_workflows dp).foldl (assembleStep []) ([], [], [])).1 := rfl
  rw [h] at hn
  exact foldl_assembleStep_nodes_inv [] (fun n => n.model = none ∧ n.description = none)
    parse_flowchart_no_md (parse_workflows dp) ([], [], [])
    (fun _ hx => absurd hx (List.not_mem_nil _)) n hn

/-- Claim C10: whenever segmentation succeeds and the YAML loader
returns null on the cleaned metadata section (in particular when that
section is empty), the pipeline raises no error: it assembles the graph
from the diagram part under an empty override mapping, and every node of
that graph carries no metadata-derived model or description. -/
theorem C10_null_metadata_graceful :
    ∀ (yl : Str → Except Str (Option Metadata)) (s m : Str),
      metaPartOf s = some m → yl m = Except.ok none →
        parse_mermaid_response yl s = Except.ok (assembleResponse (diagramPartOf s) []) ∧
        ∀ n ∈ (assembleResponse (diagramPartOf s) []).nodes,
          n.model = none ∧ n.description = none := by
  intro yl s m hm hyl
  refine ⟨?_, assemble_nodes_no_md _⟩
  unfold metaPartOf segmentedOf at hm
  dsimp only [] at hm
  split at hm
  · exact Option.noConfusion hm
  · rename_i hsent
    split at hm
    · rename_i p heq
      obtain ⟨d, m0⟩ := p
      simp only [Option.map_some'] at hm
      unfold parse_mermaid_response parseCleaned diagramPartOf segmentedOf
      simp only [if_neg hsent]
      rw [heq]
      dsimp only []
      rw [Option.some.inj hm, hyl]
      rfl
    · exact Option.noConfusion hm

theorem C10_witness :
    metaPartOf nullMetaResponse = some [] ∧
    yamlLoadModel [] = Except.ok none ∧
    parse_mermaid_response yamlLoadModel nullMetaResponse =
      Except.ok (assembleResponse (diagramPartOf nullMetaResponse) []) ∧
    (assembleResponse (diagramPartOf nullMetaResponse) []).nodes.map
      (fun n => (n.model, n.description)) = [(none, none)] :=
  ⟨by decide, by decide,
    (C10_null_metadata_graceful yamlLoadModel nullMetaResponse [] (by decide) (by decide)).1, by decide⟩

end Codag
